import Mathlib

/-!
# Counting semaphores of `kernel/cs1550.c`

A shallow embedding of the four system calls `cs1550_create`, `cs1550_down`,
`cs1550_up` and `cs1550_close` of `linux-5.10.10/kernel/cs1550.c`.

* The global variables `sem_list` and `max_sem_id` form the `State`.
* A `long` is an `Int` kept in the range `LONG_MIN .. LONG_MAX`; the three
  arithmetic statements of the file (`max_sem_id++`, `sem->value -= 1`,
  `sem->value += 1`) wrap modulo `2 ^ 64` (the kernel is built with
  `-fno-strict-overflow`), which `wrap_long` makes explicit.
* The outcome of `kmalloc` is an argument of the call (`true`: a non-NULL
  pointer), and so is `current`, the calling task.
* Each call yields its return value, the state it leaves and the list of the
  lock, scheduler, allocation and store operations it performed, in program
  order.
* Properties of the order of operations inside one call (locks held at a
  store or at `schedule`, order of releases) are checked on that list.
* Two creates running at the same time are modelled by the memory accesses
  and lock operations of `cs1550_create` taken one at a time under a schedule.
-/

namespace CS1550

/-! ## Machine integers and error numbers -/

/-- Largest value of a 64-bit `long`. -/
def LONG_MAX : Int := 2 ^ 63 - 1

/-- Smallest value of a 64-bit `long`. -/
def LONG_MIN : Int := -(2 ^ 63)

/-- Two's-complement reduction of an integer to the range of a 64-bit `long`. -/
def wrap_long (x : Int) : Int := (x + 2 ^ 63) % 2 ^ 64 - 2 ^ 63

/-- Error number `EINVAL`; the kernel header `errno-base.h` that defines it is
not among the sources, the number is the one Linux uses. -/
def EINVAL : Int := 22

/-- Error number `ENOMEM`; the kernel header `errno-base.h` that defines it is
not among the sources, the number is the one Linux uses. -/
def ENOMEM : Int := 12

/-! ## Data model -/

/-- Modelled from the spec: `struct cs1550_task` is declared in
`linux/cs1550.h`, which is not among the sources. The code uses its `list`
link (here: the position in the waiter list) and its `task` pointer (here: a
number naming the task). -/
structure cs1550_task where
  task : Nat
deriving DecidableEq, Repr

/-- Modelled from the spec: `struct cs1550_sem` is declared in
`linux/cs1550.h`, which is not among the sources. The code uses the fields
`sem_id` and `value` (both assigned from a `long`), `waiting_tasks` (the FIFO
list of waiter records), `list` (here: the position in `sem_list`) and `lock`
(here: the lock operations recorded in the trace). -/
structure cs1550_sem where
  sem_id : Int
  value : Int
  waiting_tasks : List cs1550_task
deriving DecidableEq, Repr

/-- The global variables of `cs1550.c`: the list `sem_list` of live semaphores,
in list order, and the identifier counter `max_sem_id`. -/
structure State where
  sem_list : List cs1550_sem
  max_sem_id : Int
deriving DecidableEq, Repr

/-- State at boot: `LIST_HEAD(sem_list)` and `max_sem_id = 0`. -/
def State.init : State := { sem_list := [], max_sem_id := 0 }

/-- Operations a system call performs besides computing, in program order. -/
inductive Event where
  | read_lock
  | read_unlock
  | write_lock
  | write_unlock
  | spin_lock (sem_id : Int)
  | spin_unlock (sem_id : Int)
  | kmalloc (ok : Bool)
  | kfree (sem_id : Int)
  | store_max_sem_id
  | store_value (sem_id : Int)
  | list_add_sem (sem_id : Int)
  | list_del_sem (sem_id : Int)
  | list_add_task (sem_id : Int) (task : Nat)
  | list_del_task (sem_id : Int) (task : Nat)
  | set_current_state
  | schedule (current : Nat)
  | wake_up_process (task : Nat)
  | null_deref
deriving DecidableEq, Repr

/-- What a system call leaves behind: `ret` is the value returned (`none` when
the call dereferences a NULL pointer and never returns), `state` the global
variables afterwards, `trace` the operations performed. -/
structure Result where
  ret : Option Int
  state : State
  trace : List Event
deriving DecidableEq, Repr

/-- The loop `list_for_each_entry(sem, &sem_list, list)` with
`if (sem->sem_id == sem_id) goto found;`: the first entry with the identifier,
together with the entries before and after it, or `none` when the loop runs to
the end of the list. -/
def find_sem (sem_id : Int) :
    List cs1550_sem → Option (List cs1550_sem × cs1550_sem × List cs1550_sem)
  | [] => none
  | sem :: rest =>
    if sem.sem_id = sem_id then some ([], sem, rest)
    else
      match find_sem sem_id rest with
      | none => none
      | some (before, found, after) => some (sem :: before, found, after)

/-! ## The four system calls -/

/-- System call `cs1550_create(value)`; `kmalloc_ok` tells whether the
allocation of the semaphore succeeds. -/
def cs1550_create (value : Int) (kmalloc_ok : Bool) (s : State) : Result :=
  if value < 0 then
    { ret := some (-EINVAL), state := s, trace := [] }
  else if kmalloc_ok = false then
    { ret := some (-ENOMEM), state := s, trace := [Event.kmalloc false] }
  else
    let new_sem : cs1550_sem :=
      { sem_id := s.max_sem_id, value := value, waiting_tasks := [] }
    { ret := some new_sem.sem_id
      state :=
        { sem_list := s.sem_list ++ [new_sem]
          max_sem_id := wrap_long (s.max_sem_id + 1) }
      trace :=
        [Event.kmalloc true, Event.store_value new_sem.sem_id,
         Event.store_max_sem_id, Event.write_lock,
         Event.list_add_sem new_sem.sem_id, Event.write_unlock] }

/-- System call `cs1550_down(sem_id)` issued by the task `current`;
`kmalloc_ok` tells whether the allocation of the waiter record succeeds (the
code does not test it, and initialises the record through the pointer). -/
def cs1550_down (sem_id : Int) (current : Nat) (kmalloc_ok : Bool) (s : State) :
    Result :=
  match find_sem sem_id s.sem_list with
  | none =>
    { ret := some (-EINVAL), state := s,
      trace := [Event.read_lock, Event.read_unlock] }
  | some (before, sem, after) =>
    let value := wrap_long (sem.value - 1)
    if value < 0 then
      if kmalloc_ok = false then
        { ret := none
          state := { s with sem_list := before ++ { sem with value := value } :: after }
          trace :=
            [Event.read_lock, Event.spin_lock sem.sem_id,
             Event.store_value sem.sem_id, Event.kmalloc false,
             Event.null_deref] }
      else
        { ret := some 0
          state :=
            { s with
              sem_list :=
                before ++
                  { sem with
                    value := value
                    waiting_tasks := sem.waiting_tasks ++ [{ task := current }] } ::
                  after }
          trace :=
            [Event.read_lock, Event.spin_lock sem.sem_id,
             Event.store_value sem.sem_id, Event.kmalloc true,
             Event.list_add_task sem.sem_id current, Event.set_current_state,
             Event.spin_unlock sem.sem_id, Event.read_unlock,
             Event.schedule current] }
    else
      { ret := some 0
        state := { s with sem_list := before ++ { sem with value := value } :: after }
        trace :=
          [Event.read_lock, Event.spin_lock sem.sem_id,
           Event.store_value sem.sem_id, Event.spin_unlock sem.sem_id,
           Event.read_unlock] }

/-- System call `cs1550_up(sem_id)`. -/
def cs1550_up (sem_id : Int) (s : State) : Result :=
  match find_sem sem_id s.sem_list with
  | none =>
    { ret := some (-EINVAL), state := s,
      trace := [Event.read_lock, Event.read_unlock] }
  | some (before, sem, after) =>
    let value := wrap_long (sem.value + 1)
    if value ≤ 0 then
      match sem.waiting_tasks with
      | [] =>
        { ret := some (-EINVAL)
          state := { s with sem_list := before ++ { sem with value := value } :: after }
          trace :=
            [Event.read_lock, Event.spin_lock sem.sem_id,
             Event.store_value sem.sem_id, Event.spin_unlock sem.sem_id,
             Event.read_unlock] }
      | head :: rest =>
        { ret := some 0
          state :=
            { s with
              sem_list :=
                before ++ { sem with value := value, waiting_tasks := rest } :: after }
          trace :=
            [Event.read_lock, Event.spin_lock sem.sem_id,
             Event.store_value sem.sem_id,
             Event.list_del_task sem.sem_id head.task,
             Event.wake_up_process head.task, Event.spin_unlock sem.sem_id,
             Event.read_unlock] }
    else
      { ret := some 0
        state := { s with sem_list := before ++ { sem with value := value } :: after }
        trace :=
          [Event.read_lock, Event.spin_lock sem.sem_id,
           Event.store_value sem.sem_id, Event.spin_unlock sem.sem_id,
           Event.read_unlock] }

/-- System call `cs1550_close(sem_id)`. -/
def cs1550_close (sem_id : Int) (s : State) : Result :=
  match find_sem sem_id s.sem_list with
  | none =>
    { ret := some (-EINVAL), state := s,
      trace := [Event.read_lock, Event.read_unlock] }
  | some (before, sem, after) =>
    match sem.waiting_tasks with
    | [] =>
      { ret := some 0
        state := { s with sem_list := before ++ after }
        trace :=
          [Event.read_lock, Event.read_unlock, Event.write_lock,
           Event.spin_lock sem.sem_id, Event.list_del_sem sem.sem_id,
           Event.spin_unlock sem.sem_id, Event.kfree sem.sem_id,
           Event.write_unlock] }
    | _ :: _ =>
      { ret := some (-EINVAL)
        state := s
        trace :=
          [Event.read_lock, Event.read_unlock, Event.write_lock,
           Event.spin_lock sem.sem_id, Event.spin_unlock sem.sem_id,
           Event.write_unlock] }

/-! ## Sequences of calls -/

/-- One system call with its arguments and the outcome of its allocation. -/
inductive Call where
  | create (value : Int) (kmalloc_ok : Bool)
  | down (sem_id : Int) (current : Nat) (kmalloc_ok : Bool)
  | up (sem_id : Int)
  | close (sem_id : Int)
deriving DecidableEq, Repr

/-- Outcome of one call. -/
def step (c : Call) (s : State) : Result :=
  match c with
  | Call.create value ok => cs1550_create value ok s
  | Call.down sem_id current ok => cs1550_down sem_id current ok s
  | Call.up sem_id => cs1550_up sem_id s
  | Call.close sem_id => cs1550_close sem_id s

/-- Outcomes of a sequence of calls issued one after the other from `s`, in
order. -/
def run_log : List Call → State → List Result
  | [], _ => []
  | c :: cs, s => step c s :: run_log cs (step c s).state

/-- State left by a sequence of calls issued one after the other from `s`. -/
def run : List Call → State → State
  | [], s => s
  | c :: cs, s => run cs (step c s).state

/-- A create call that passes both tests of `cs1550_create` and so returns the
identifier of a new semaphore. -/
def Call.creates : Call → Bool
  | Call.create value ok => decide (0 ≤ value) && ok
  | _ => false

/-- Values returned, in order, by those creates of a sequence of calls issued
from `s` that passed both tests: the identifiers handed out. -/
def created_ids : List Call → State → List Int
  | [], _ => []
  | c :: cs, s =>
    if c.creates then
      match (step c s).ret with
      | some id => id :: created_ids cs (step c s).state
      | none => created_ids cs (step c s).state
    else created_ids cs (step c s).state

/-- Tasks passed to `wake_up_process` in a trace, in order. -/
def woken : List Event → List Nat
  | [] => []
  | Event.wake_up_process task :: es => task :: woken es
  | _ :: es => woken es

/-- Tasks that called `schedule` in a trace, in order. -/
def suspended : List Event → List Nat
  | [] => []
  | Event.schedule current :: es => current :: suspended es
  | _ :: es => suspended es

/-- The entry `sem` of `sem_list` is the one at which a search for its
identifier stops: `before` are the entries in front of it, none of which has
its identifier, and `after` the entries behind it. Where the identifiers of
`sem_list` are pairwise distinct this holds of every entry. -/
def Live (s : State) (before : List cs1550_sem) (sem : cs1550_sem)
    (after : List cs1550_sem) : Prop :=
  s.sem_list = before ++ sem :: after ∧ ∀ x ∈ before, x.sem_id ≠ sem.sem_id

instance (s : State) (before : List cs1550_sem) (sem : cs1550_sem)
    (after : List cs1550_sem) : Decidable (Live s before sem after) := by
  unfold Live
  infer_instance

/-- The down calls of the tasks `callers`, one after the other, on `sem_id`,
each with a successful allocation. -/
def downs (sem_id : Int) (callers : List Nat) : List Call :=
  callers.map fun c => Call.down sem_id c true

/-- The sequence of `n` up calls on `sem_id`. -/
def ups (sem_id : Int) (n : Nat) : List Call :=
  List.replicate n (Call.up sem_id)

/-! ## Identifiers in use -/

/-- Identifiers of the live semaphores, in list order. -/
def State.ids (s : State) : List Int := s.sem_list.map cs1550_sem.sem_id

/-- The state is one in which `n` identifiers have been handed out so far: the
counter is `n` reduced to a `long`, the identifiers of the live semaphores are
pairwise distinct, and each of them is one of the first `n` values of the
counter. -/
def issued (s : State) (n : Nat) : Prop :=
  s.max_sem_id = wrap_long n ∧ s.ids.Nodup ∧
    ∀ x ∈ s.ids, ∃ k : Nat, k < n ∧ x = wrap_long k

/-! ## Calls that return and stay within a `long` -/

/-- The call returns, and it does not take a semaphore value out of the range
of a `long`: a create is given a value that is a `long`, a down does not find
the value at `LONG_MIN`, an up does not find it at `LONG_MAX`. -/
def completes_in_range (c : Call) (s : State) : Bool :=
  (step c s).ret.isSome &&
    match c with
    | Call.create value _ => decide (value ≤ LONG_MAX)
    | Call.down sem_id _ _ =>
      match find_sem sem_id s.sem_list with
      | none => true
      | some (_, sem, _) => decide (LONG_MIN < sem.value)
    | Call.up sem_id =>
      match find_sem sem_id s.sem_list with
      | none => true
      | some (_, sem, _) => decide (sem.value < LONG_MAX)
    | Call.close _ => true

/-- Every call of the sequence, issued in turn from `s`, returns and stays
within the range of a `long`. -/
def run_in_range : List Call → State → Bool
  | [], _ => true
  | c :: cs, s => completes_in_range c s && run_in_range cs (step c s).state

/-- The value of the semaphore accounts for its waiters: their number is
`max(0, -value)`. -/
def cs1550_sem.consistent (sem : cs1550_sem) : Prop :=
  (sem.waiting_tasks.length : Int) = max 0 (-sem.value)

instance (sem : cs1550_sem) : Decidable sem.consistent := by
  unfold cs1550_sem.consistent
  infer_instance

/-- The value of the semaphore is a `long`. -/
def cs1550_sem.in_range (sem : cs1550_sem) : Prop :=
  LONG_MIN ≤ sem.value ∧ sem.value ≤ LONG_MAX

instance (sem : cs1550_sem) : Decidable sem.in_range := by
  unfold cs1550_sem.in_range
  infer_instance

/-! ## Locks along a trace -/

/-- The locks of `cs1550.c`: the two sides of the reader/writer lock
`sem_rwlock` and the spin lock `lock` of the semaphore with a given
identifier. -/
inductive Lock where
  | sem_rwlock_read
  | sem_rwlock_write
  | sem_lock (sem_id : Int)
deriving DecidableEq, Repr

/-- Lock taken by an operation, if it takes one. -/
def Event.acquires : Event → Option Lock
  | Event.read_lock => some Lock.sem_rwlock_read
  | Event.write_lock => some Lock.sem_rwlock_write
  | Event.spin_lock sem_id => some (Lock.sem_lock sem_id)
  | _ => none

/-- Lock released by an operation, if it releases one. -/
def Event.releases : Event → Option Lock
  | Event.read_unlock => some Lock.sem_rwlock_read
  | Event.write_unlock => some Lock.sem_rwlock_write
  | Event.spin_unlock sem_id => some (Lock.sem_lock sem_id)
  | _ => none

/-- Locks held after one operation, the most recently taken first. -/
def held_after (held : List Lock) (e : Event) : List Lock :=
  match e.acquires with
  | some l => l :: held
  | none =>
    match e.releases with
    | some l => held.erase l
    | none => held

/-- Locks held after the operations of a trace, the most recently taken
first. -/
def locks_held (held : List Lock) (es : List Event) : List Lock :=
  es.foldl held_after held

/-- Every operation of the trace is allowed by `ok` under the locks held when
it is performed. -/
def scan (ok : List Lock → Event → Bool) : List Lock → List Event → Bool
  | _, [] => true
  | held, e :: es => ok held e && scan ok (held_after held e) es

/-- A call of `schedule` is allowed only with no lock held. -/
def suspend_ok (held : List Lock) : Event → Bool
  | Event.schedule _ => held.isEmpty
  | _ => true

/-- A store to the value of a semaphore or a change of its waiter list is
allowed only with the lock of that semaphore held. -/
def sem_fields_ok (held : List Lock) : Event → Bool
  | Event.store_value sem_id => decide (Lock.sem_lock sem_id ∈ held)
  | Event.list_add_task sem_id _ => decide (Lock.sem_lock sem_id ∈ held)
  | Event.list_del_task sem_id _ => decide (Lock.sem_lock sem_id ∈ held)
  | _ => true

/-- An insertion into `sem_list` or a removal from it is allowed only with the
write side of `sem_rwlock` held. -/
def sem_list_ok (held : List Lock) : Event → Bool
  | Event.list_add_sem _ => decide (Lock.sem_rwlock_write ∈ held)
  | Event.list_del_sem _ => decide (Lock.sem_rwlock_write ∈ held)
  | _ => true

/-- A store to `max_sem_id` is allowed only with the write side of
`sem_rwlock` held. -/
def max_sem_id_ok (held : List Lock) : Event → Bool
  | Event.store_max_sem_id => decide (Lock.sem_rwlock_write ∈ held)
  | _ => true

/-- Every release in the trace releases the lock taken last among those still
held, and no lock is held at the end. -/
def lifo : List Lock → List Event → Bool
  | held, [] => held.isEmpty
  | held, e :: es =>
    match e.releases with
    | some l =>
      match held with
      | top :: rest => decide (top = l) && lifo rest es
      | [] => false
    | none =>
      match e.acquires with
      | some l => lifo (l :: held) es
      | none => lifo held es

/-! ## Two creates running at the same time -/

/-- Where one execution of `cs1550_create` stands, once past its two tests
with the value of the new semaphore stored: before the statement
`new_sem->sem_id = max_sem_id++`, after its read of `max_sem_id`, after its
write of `max_sem_id`, after `write_lock`, after `list_add_tail`, and after
`write_unlock` with the value it returns. -/
inductive CreatePc where
  | start
  | read (old : Int)
  | written (sem_id : Int)
  | locked (sem_id : Int)
  | added (sem_id : Int)
  | returned (sem_id : Int)
deriving DecidableEq, Repr

/-- One execution of `cs1550_create`: its argument and where it stands. -/
structure Creator where
  value : Int
  pc : CreatePc
deriving DecidableEq, Repr

/-- What the executions share: the global variables and whether the write side
of `sem_rwlock` is taken. -/
structure Shared where
  state : State
  write_locked : Bool
deriving DecidableEq, Repr

/-- Next memory access or lock operation of one execution of `cs1550_create`.
The statement `new_sem->sem_id = max_sem_id++` is outside the lock and is a
read of `max_sem_id` followed by a write; `write_lock` waits while the lock is
taken. -/
def create_step (t : Creator) (g : Shared) : Creator × Shared :=
  match t.pc with
  | CreatePc.start => ({ t with pc := CreatePc.read g.state.max_sem_id }, g)
  | CreatePc.read old =>
    ({ t with pc := CreatePc.written old },
     { g with state := { g.state with max_sem_id := wrap_long (old + 1) } })
  | CreatePc.written sem_id =>
    if g.write_locked then (t, g)
    else ({ t with pc := CreatePc.locked sem_id }, { g with write_locked := true })
  | CreatePc.locked sem_id =>
    ({ t with pc := CreatePc.added sem_id },
     { g with
       state :=
         { g.state with
           sem_list :=
             g.state.sem_list ++
               [{ sem_id := sem_id, value := t.value, waiting_tasks := [] }] } })
  | CreatePc.added sem_id =>
    ({ t with pc := CreatePc.returned sem_id }, { g with write_locked := false })
  | CreatePc.returned _ => (t, g)

/-- Two executions of `cs1550_create` under a schedule: at each position
`false` lets the first execution take its next step and `true` the second. -/
def interleave : List Bool → Creator × Creator × Shared → Creator × Creator × Shared
  | [], c => c
  | false :: sched, (t1, t2, g) =>
    interleave sched ((create_step t1 g).1, t2, (create_step t1 g).2)
  | true :: sched, (t1, t2, g) =>
    interleave sched (t1, (create_step t2 g).1, (create_step t2 g).2)

/-! ## Basic facts -/

theorem wrap_long_of_range {x : Int} (h1 : LONG_MIN ≤ x) (h2 : x ≤ LONG_MAX) :
    wrap_long x = x := by
  unfold wrap_long LONG_MIN LONG_MAX at *
  omega

theorem wrap_long_range (x : Int) :
    LONG_MIN ≤ wrap_long x ∧ wrap_long x ≤ LONG_MAX := by
  unfold wrap_long LONG_MIN LONG_MAX
  omega

theorem find_sem_eq_none {sem_id : Int} {l : List cs1550_sem}
    (h : ∀ x ∈ l, x.sem_id ≠ sem_id) : find_sem sem_id l = none := by
  induction l with
  | nil => rfl
  | cons a l ih =>
    have ha : a.sem_id ≠ sem_id := h a (List.mem_cons_self a l)
    have hl : find_sem sem_id l = none :=
      ih fun x hx => h x (List.mem_cons_of_mem a hx)
    simp [find_sem, ha, hl]

theorem find_sem_first {sem_id : Int} {before : List cs1550_sem}
    (sem : cs1550_sem) (after : List cs1550_sem)
    (h : ∀ x ∈ before, x.sem_id ≠ sem_id) (hid : sem.sem_id = sem_id) :
    find_sem sem_id (before ++ sem :: after) = some (before, sem, after) := by
  induction before with
  | nil => simp [find_sem, hid]
  | cons a l ih =>
    have ha : a.sem_id ≠ sem_id := h a (List.mem_cons_self a l)
    have hl := ih fun x hx => h x (List.mem_cons_of_mem a hx)
    simp [find_sem, ha, hl]

theorem find_sem_of_live {s : State} {before after : List cs1550_sem}
    {sem : cs1550_sem} (h : Live s before sem after) :
    find_sem sem.sem_id s.sem_list = some (before, sem, after) := by
  rw [h.1]
  exact find_sem_first sem after h.2 rfl

/-- In a state whose identifiers are pairwise distinct every entry of
`sem_list` is the one its identifier designates. -/
theorem live_of_nodup {s : State} {sem : cs1550_sem}
    (hnodup : (s.sem_list.map cs1550_sem.sem_id).Nodup) (hmem : sem ∈ s.sem_list) :
    ∃ before after, Live s before sem after := by
  obtain ⟨before, after, hsplit⟩ := List.append_of_mem hmem
  refine ⟨before, after, hsplit, ?_⟩
  intro x hx heq
  rw [hsplit, List.map_append, List.map_cons] at hnodup
  have hdisj := (List.nodup_append.mp hnodup).2.2
  exact hdisj (List.mem_map_of_mem _ hx) (by simp [heq])

/-- A down with a successful allocation on a live semaphore whose value `v`
satisfies `LONG_MIN < v ≤ 0` takes the blocking path. -/
theorem cs1550_down_negative (s : State) (before after : List cs1550_sem)
    (sem : cs1550_sem) (current : Nat) (hlive : Live s before sem after)
    (hv : sem.value ≤ 0) (hmin : LONG_MIN < sem.value) :
    cs1550_down sem.sem_id current true s =
      { ret := some 0
        state :=
          { s with
            sem_list :=
              before ++
                { sem with
                  value := sem.value - 1
                  waiting_tasks := sem.waiting_tasks ++ [{ task := current }] } ::
                after }
        trace :=
          [Event.read_lock, Event.spin_lock sem.sem_id, Event.store_value sem.sem_id,
           Event.kmalloc true, Event.list_add_task sem.sem_id current,
           Event.set_current_state, Event.spin_unlock sem.sem_id, Event.read_unlock,
           Event.schedule current] } := by
  have hw : wrap_long (sem.value - 1) = sem.value - 1 :=
    wrap_long_of_range (by omega) (by unfold LONG_MAX; omega)
  have hneg : sem.value - 1 < 0 := by omega
  simp [cs1550_down, find_sem_of_live hlive, hw, hneg]

/-- An up on a live semaphore with a negative value and a waiter takes the
waking path. -/
theorem cs1550_up_negative (s : State) (before after : List cs1550_sem)
    (sem : cs1550_sem) (head : cs1550_task) (rest : List cs1550_task)
    (hlive : Live s before sem after) (hv : sem.value < 0) (hlong : LONG_MIN ≤ sem.value)
    (hwait : sem.waiting_tasks = head :: rest) :
    cs1550_up sem.sem_id s =
      { ret := some 0
        state :=
          { s with
            sem_list :=
              before ++
                { sem with value := sem.value + 1, waiting_tasks := rest } :: after }
        trace :=
          [Event.read_lock, Event.spin_lock sem.sem_id, Event.store_value sem.sem_id,
           Event.list_del_task sem.sem_id head.task, Event.wake_up_process head.task,
           Event.spin_unlock sem.sem_id, Event.read_unlock] } := by
  have hw : wrap_long (sem.value + 1) = sem.value + 1 :=
    wrap_long_of_range (by omega) (by unfold LONG_MAX; omega)
  have hle : sem.value + 1 ≤ 0 := by omega
  simp [cs1550_up, find_sem_of_live hlive, hw, hle, hwait]

/-! ## Creation -/

/-- C2: for every registry state and every value `v ≥ 0`, a create whose
allocation succeeds returns the current counter as identifier, and the registry
afterwards is the previous list of semaphores, unchanged and in the same order,
followed by one new semaphore with that identifier, value `v` and no waiter. -/
theorem create_appends_new_semaphore (s : State) (v : Int) (hv : 0 ≤ v) :
    ∃ id : Int,
      (cs1550_create v true s).ret = some id ∧
      (cs1550_create v true s).state.sem_list =
        s.sem_list ++ [{ sem_id := id, value := v, waiting_tasks := [] }] := by
  refine ⟨s.max_sem_id, ?_, ?_⟩ <;> simp [cs1550_create, not_lt.mpr hv]

theorem create_appends_new_semaphore_witness :
    ∃ id : Int,
      (cs1550_create 2 true { sem_list := [⟨0, -1, [⟨7⟩]⟩], max_sem_id := 1 }).ret = some id ∧
      (cs1550_create 2 true { sem_list := [⟨0, -1, [⟨7⟩]⟩], max_sem_id := 1 }).state.sem_list =
        [⟨0, -1, [⟨7⟩]⟩] ++ [{ sem_id := id, value := 2, waiting_tasks := [] }] :=
  create_appends_new_semaphore { sem_list := [⟨0, -1, [⟨7⟩]⟩], max_sem_id := 1 } 2 (by decide)

/-- C3: for every registry state and every value `v < 0`, create returns
`-EINVAL` having done nothing: the state (list of semaphores and identifier
counter) is unchanged, and any create issued next yields exactly what it would
have yielded without the failing call. -/
theorem create_negative_rejected (s : State) (v : Int) (ok : Bool) (hv : v < 0) :
    cs1550_create v ok s = { ret := some (-EINVAL), state := s, trace := [] } ∧
      ∀ (w : Int) (ok2 : Bool),
        cs1550_create w ok2 (cs1550_create v ok s).state = cs1550_create w ok2 s := by
  have h : cs1550_create v ok s = { ret := some (-EINVAL), state := s, trace := [] } := by
    simp [cs1550_create, hv]
  exact ⟨h, fun w ok2 => by rw [h]⟩

theorem create_negative_rejected_witness :
    cs1550_create (-1) true State.init =
        { ret := some (-EINVAL), state := State.init, trace := [] } ∧
      ∀ (w : Int) (ok2 : Bool),
        cs1550_create w ok2 (cs1550_create (-1) true State.init).state =
          cs1550_create w ok2 State.init :=
  create_negative_rejected State.init (-1) true (by decide)

/-! ## Unknown identifiers -/

/-- C4: for every registry state and every identifier carried by no live
semaphore, each of down, up and close returns `-EINVAL`, leaves the state
(semaphores, values, waiter lists and identifier counter) unchanged, and
calls neither `schedule` nor `wake_up_process`. -/
theorem unknown_id_rejected (s : State) (sem_id : Int) (current : Nat) (ok : Bool)
    (h : ∀ sem ∈ s.sem_list, sem.sem_id ≠ sem_id) :
    ((cs1550_down sem_id current ok s).ret = some (-EINVAL) ∧
        (cs1550_down sem_id current ok s).state = s ∧
        suspended (cs1550_down sem_id current ok s).trace = [] ∧
        woken (cs1550_down sem_id current ok s).trace = []) ∧
      ((cs1550_up sem_id s).ret = some (-EINVAL) ∧
        (cs1550_up sem_id s).state = s ∧
        suspended (cs1550_up sem_id s).trace = [] ∧
        woken (cs1550_up sem_id s).trace = []) ∧
      ((cs1550_close sem_id s).ret = some (-EINVAL) ∧
        (cs1550_close sem_id s).state = s ∧
        suspended (cs1550_close sem_id s).trace = [] ∧
        woken (cs1550_close sem_id s).trace = []) := by
  have hnone := find_sem_eq_none h
  simp [cs1550_down, cs1550_up, cs1550_close, hnone, suspended, woken]

theorem unknown_id_rejected_witness :
    ((cs1550_down 3 9 true ⟨[⟨0, 1, []⟩, ⟨2, -1, [⟨7⟩]⟩], 3⟩).ret = some (-EINVAL) ∧
        (cs1550_down 3 9 true ⟨[⟨0, 1, []⟩, ⟨2, -1, [⟨7⟩]⟩], 3⟩).state =
          ⟨[⟨0, 1, []⟩, ⟨2, -1, [⟨7⟩]⟩], 3⟩ ∧
        suspended (cs1550_down 3 9 true ⟨[⟨0, 1, []⟩, ⟨2, -1, [⟨7⟩]⟩], 3⟩).trace = [] ∧
        woken (cs1550_down 3 9 true ⟨[⟨0, 1, []⟩, ⟨2, -1, [⟨7⟩]⟩], 3⟩).trace = []) ∧
      ((cs1550_up 3 ⟨[⟨0, 1, []⟩, ⟨2, -1, [⟨7⟩]⟩], 3⟩).ret = some (-EINVAL) ∧
        (cs1550_up 3 ⟨[⟨0, 1, []⟩, ⟨2, -1, [⟨7⟩]⟩], 3⟩).state =
          ⟨[⟨0, 1, []⟩, ⟨2, -1, [⟨7⟩]⟩], 3⟩ ∧
        suspended (cs1550_up 3 ⟨[⟨0, 1, []⟩, ⟨2, -1, [⟨7⟩]⟩], 3⟩).trace = [] ∧
        woken (cs1550_up 3 ⟨[⟨0, 1, []⟩, ⟨2, -1, [⟨7⟩]⟩], 3⟩).trace = []) ∧
      ((cs1550_close 3 ⟨[⟨0, 1, []⟩, ⟨2, -1, [⟨7⟩]⟩], 3⟩).ret = some (-EINVAL) ∧
        (cs1550_close 3 ⟨[⟨0, 1, []⟩, ⟨2, -1, [⟨7⟩]⟩], 3⟩).state =
          ⟨[⟨0, 1, []⟩, ⟨2, -1, [⟨7⟩]⟩], 3⟩ ∧
        suspended (cs1550_close 3 ⟨[⟨0, 1, []⟩, ⟨2, -1, [⟨7⟩]⟩], 3⟩).trace = [] ∧
        woken (cs1550_close 3 ⟨[⟨0, 1, []⟩, ⟨2, -1, [⟨7⟩]⟩], 3⟩).trace = []) :=
  unknown_id_rejected ⟨[⟨0, 1, []⟩, ⟨2, -1, [⟨7⟩]⟩], 3⟩ 3 9 true (by decide)

/-! ## Down -/

/-- C5: for every live semaphore whose value `v` is a `long` with `v ≥ 1`,
down returns 0, the semaphore afterwards has value `v - 1` and the same waiter
list, everything else in the state is unchanged, and the call takes and
releases the two locks only: it enqueues nothing and does not call
`schedule`. -/
theorem down_with_permit (s : State) (before after : List cs1550_sem) (sem : cs1550_sem)
    (current : Nat) (ok : Bool) (hlive : Live s before sem after)
    (hv : 1 ≤ sem.value) (hlong : sem.value ≤ LONG_MAX) :
    cs1550_down sem.sem_id current ok s =
        { ret := some 0
          state :=
            { s with sem_list := before ++ { sem with value := sem.value - 1 } :: after }
          trace :=
            [Event.read_lock, Event.spin_lock sem.sem_id, Event.store_value sem.sem_id,
             Event.spin_unlock sem.sem_id, Event.read_unlock] } ∧
      suspended (cs1550_down sem.sem_id current ok s).trace = [] := by
  have hw : wrap_long (sem.value - 1) = sem.value - 1 :=
    wrap_long_of_range (by unfold LONG_MIN; omega) (by omega)
  have hnn : ¬ sem.value - 1 < 0 := by omega
  simp [cs1550_down, find_sem_of_live hlive, hw, hnn, suspended]

theorem down_with_permit_witness :
    cs1550_down 0 5 true (cs1550_create 2 true State.init).state =
        { ret := some 0
          state := { sem_list := [⟨0, 1, []⟩], max_sem_id := 1 }
          trace :=
            [Event.read_lock, Event.spin_lock 0, Event.store_value 0,
             Event.spin_unlock 0, Event.read_unlock] } ∧
      suspended (cs1550_down 0 5 true (cs1550_create 2 true State.init).state).trace = [] :=
  down_with_permit (cs1550_create 2 true State.init).state [] [] ⟨0, 2, []⟩ 5 true
    (by decide) (by decide) (by decide)

/-- A down on a semaphore whose value is `LONG_MIN` wraps the value to
`LONG_MAX` and returns without enqueueing or suspending the caller. -/
theorem down_at_long_min (s : State) (before after : List cs1550_sem) (sem : cs1550_sem)
    (current : Nat) (ok : Bool) (hlive : Live s before sem after)
    (hv : sem.value = LONG_MIN) :
    cs1550_down sem.sem_id current ok s =
      { ret := some 0
        state :=
          { s with sem_list := before ++ { sem with value := LONG_MAX } :: after }
        trace :=
          [Event.read_lock, Event.spin_lock sem.sem_id, Event.store_value sem.sem_id,
           Event.spin_unlock sem.sem_id, Event.read_unlock] } := by
  have hw : wrap_long (sem.value - 1) = LONG_MAX := by rw [hv]; decide
  have hnn : ¬ LONG_MAX < 0 := by decide
  simp [cs1550_down, find_sem_of_live hlive, hw, hnn]

/-- C6, as stated, fails at the smallest `long`: a live semaphore with value
`LONG_MIN ≤ 0` and `2 ^ 63` waiters; down by task 5 with a successful
allocation leaves the value at `LONG_MAX`, not `LONG_MIN - 1`, appends no
waiter record and does not call `schedule`. -/
theorem down_blocking_fails_at_long_min :
    (cs1550_down 0 5 true
        { sem_list := [⟨0, LONG_MIN, List.replicate (2 ^ 63) ⟨7⟩⟩], max_sem_id := 1 }).state =
        { sem_list := [⟨0, LONG_MAX, List.replicate (2 ^ 63) ⟨7⟩⟩], max_sem_id := 1 } ∧
      suspended (cs1550_down 0 5 true
        { sem_list := [⟨0, LONG_MIN, List.replicate (2 ^ 63) ⟨7⟩⟩], max_sem_id := 1 }).trace =
        [] ∧
      LONG_MIN ≤ 0 ∧ LONG_MAX ≠ LONG_MIN - 1 := by
  have h := down_at_long_min
    { sem_list := [⟨0, LONG_MIN, List.replicate (2 ^ 63) ⟨7⟩⟩], max_sem_id := 1 } [] []
    ⟨0, LONG_MIN, List.replicate (2 ^ 63) ⟨7⟩⟩ 5 true ⟨rfl, by simp⟩ rfl
  simp only [List.nil_append] at h
  rw [h]
  exact ⟨rfl, rfl, by decide, by decide⟩

/-- C6 (amended): for every live semaphore whose value `v` satisfies
`LONG_MIN < v ≤ 0`, down with a successful waiter allocation returns 0, sets
the value to `v - 1`, appends a waiter record for the caller at the tail of the
waiter list, the waiters already there keeping their order, changes nothing
else in the state, and calls `schedule` exactly once, after both unlocks. -/
theorem down_blocks (s : State) (before after : List cs1550_sem) (sem : cs1550_sem)
    (current : Nat) (hlive : Live s before sem after)
    (hv : sem.value ≤ 0) (hmin : LONG_MIN < sem.value) :
    cs1550_down sem.sem_id current true s =
        { ret := some 0
          state :=
            { s with
              sem_list :=
                before ++
                  { sem with
                    value := sem.value - 1
                    waiting_tasks := sem.waiting_tasks ++ [{ task := current }] } ::
                  after }
          trace :=
            [Event.read_lock, Event.spin_lock sem.sem_id, Event.store_value sem.sem_id,
             Event.kmalloc true, Event.list_add_task sem.sem_id current,
             Event.set_current_state, Event.spin_unlock sem.sem_id, Event.read_unlock,
             Event.schedule current] } ∧
      suspended (cs1550_down sem.sem_id current true s).trace = [current] := by
  have h := cs1550_down_negative s before after sem current hlive hv hmin
  refine ⟨h, ?_⟩
  rw [h]
  simp [suspended]

theorem down_blocks_witness :
    cs1550_down 0 9 true { sem_list := [⟨0, -1, [⟨7⟩]⟩], max_sem_id := 1 } =
        { ret := some 0
          state := { sem_list := [⟨0, -2, [⟨7⟩, ⟨9⟩]⟩], max_sem_id := 1 }
          trace :=
            [Event.read_lock, Event.spin_lock 0, Event.store_value 0,
             Event.kmalloc true, Event.list_add_task 0 9,
             Event.set_current_state, Event.spin_unlock 0, Event.read_unlock,
             Event.schedule 9] } ∧
      suspended (cs1550_down 0 9 true { sem_list := [⟨0, -1, [⟨7⟩]⟩], max_sem_id := 1 }).trace =
        [9] := by
  have h := down_blocks { sem_list := [⟨0, -1, [⟨7⟩]⟩], max_sem_id := 1 } [] []
    ⟨0, -1, [⟨7⟩]⟩ 9 (by decide) (by decide) (by decide)
  simpa using h

/-! ## Up -/

/-- C7: for every live semaphore whose value `v` is a `long` with `v < 0` and
whose waiter list is `head :: rest`, up returns 0, sets the value to `v + 1`,
leaves `rest` as the waiter list (the head alone is removed, the others keep
their order), changes nothing else in the state, and calls `wake_up_process`
on the task of `head` and on no other task. -/
theorem up_wakes_head (s : State) (before after : List cs1550_sem) (sem : cs1550_sem)
    (head : cs1550_task) (rest : List cs1550_task) (hlive : Live s before sem after)
    (hv : sem.value < 0) (hlong : LONG_MIN ≤ sem.value)
    (hwait : sem.waiting_tasks = head :: rest) :
    cs1550_up sem.sem_id s =
        { ret := some 0
          state :=
            { s with
              sem_list :=
                before ++
                  { sem with value := sem.value + 1, waiting_tasks := rest } :: after }
          trace :=
            [Event.read_lock, Event.spin_lock sem.sem_id, Event.store_value sem.sem_id,
             Event.list_del_task sem.sem_id head.task, Event.wake_up_process head.task,
             Event.spin_unlock sem.sem_id, Event.read_unlock] } ∧
      woken (cs1550_up sem.sem_id s).trace = [head.task] := by
  have h := cs1550_up_negative s before after sem head rest hlive hv hlong hwait
  refine ⟨h, ?_⟩
  rw [h]
  simp [woken]

theorem up_wakes_head_witness :
    cs1550_up 0 { sem_list := [⟨0, -1, [⟨7⟩]⟩], max_sem_id := 1 } =
        { ret := some 0
          state := { sem_list := [⟨0, 0, []⟩], max_sem_id := 1 }
          trace :=
            [Event.read_lock, Event.spin_lock 0, Event.store_value 0,
             Event.list_del_task 0 7, Event.wake_up_process 7,
             Event.spin_unlock 0, Event.read_unlock] } ∧
      woken (cs1550_up 0 { sem_list := [⟨0, -1, [⟨7⟩]⟩], max_sem_id := 1 }).trace = [7] := by
  have h := up_wakes_head { sem_list := [⟨0, -1, [⟨7⟩]⟩], max_sem_id := 1 } [] []
    ⟨0, -1, [⟨7⟩]⟩ ⟨7⟩ [] (by decide) (by decide) (by decide) rfl
  simpa using h

/-! ## Close -/

/-- C9: for every registry state and every live semaphore, close returns 0 if
and only if the waiter list of that semaphore is empty; when it is empty the
state afterwards is the previous one with exactly that entry removed (the
other semaphores, their order and the identifier counter unchanged); when it
is not, close returns `-EINVAL`. -/
theorem close_succeeds_iff_no_waiters (s : State) (before after : List cs1550_sem)
    (sem : cs1550_sem) (hlive : Live s before sem after) :
    ((cs1550_close sem.sem_id s).ret = some 0 ↔ sem.waiting_tasks = []) ∧
      (sem.waiting_tasks = [] →
        (cs1550_close sem.sem_id s).state = { s with sem_list := before ++ after }) ∧
      (sem.waiting_tasks ≠ [] → (cs1550_close sem.sem_id s).ret = some (-EINVAL)) := by
  cases hw : sem.waiting_tasks with
  | nil => simp [cs1550_close, find_sem_of_live hlive, hw]
  | cons head rest => simp [cs1550_close, find_sem_of_live hlive, hw, EINVAL]

theorem close_succeeds_iff_no_waiters_witness :
    ((cs1550_close 2 ⟨[⟨0, 1, []⟩, ⟨2, 0, []⟩, ⟨3, -1, [⟨7⟩]⟩], 4⟩).ret = some 0 ↔
        ([] : List cs1550_task) = []) ∧
      (([] : List cs1550_task) = [] →
        (cs1550_close 2 ⟨[⟨0, 1, []⟩, ⟨2, 0, []⟩, ⟨3, -1, [⟨7⟩]⟩], 4⟩).state =
          ⟨[⟨0, 1, []⟩, ⟨3, -1, [⟨7⟩]⟩], 4⟩) ∧
      (([] : List cs1550_task) ≠ [] →
        (cs1550_close 2 ⟨[⟨0, 1, []⟩, ⟨2, 0, []⟩, ⟨3, -1, [⟨7⟩]⟩], 4⟩).ret =
          some (-EINVAL)) :=
  close_succeeds_iff_no_waiters ⟨[⟨0, 1, []⟩, ⟨2, 0, []⟩, ⟨3, -1, [⟨7⟩]⟩], 4⟩
    [⟨0, 1, []⟩] [⟨3, -1, [⟨7⟩]⟩] ⟨2, 0, []⟩ (by decide)

/-- C10: for every registry state and every live semaphore with a non-empty
waiter list, close returns `-EINVAL` and leaves the state as it was (same
entries in the same order, same value and waiter list of that semaphore, same
identifier counter), so a down or an up issued next yields exactly what it
would have yielded without the close. -/
theorem close_busy_changes_nothing (s : State) (before after : List cs1550_sem)
    (sem : cs1550_sem) (hlive : Live s before sem after)
    (hwait : sem.waiting_tasks ≠ []) :
    (cs1550_close sem.sem_id s).ret = some (-EINVAL) ∧
      (cs1550_close sem.sem_id s).state = s ∧
      (∀ (current : Nat) (ok : Bool),
        cs1550_down sem.sem_id current ok (cs1550_close sem.sem_id s).state =
          cs1550_down sem.sem_id current ok s) ∧
      cs1550_up sem.sem_id (cs1550_close sem.sem_id s).state = cs1550_up sem.sem_id s := by
  have hstate : (cs1550_close sem.sem_id s).state = s := by
    cases hw : sem.waiting_tasks with
    | nil => exact absurd hw hwait
    | cons head rest => simp [cs1550_close, find_sem_of_live hlive, hw]
  have hret : (cs1550_close sem.sem_id s).ret = some (-EINVAL) := by
    cases hw : sem.waiting_tasks with
    | nil => exact absurd hw hwait
    | cons head rest => simp [cs1550_close, find_sem_of_live hlive, hw]
  exact ⟨hret, hstate, fun current ok => by rw [hstate], by rw [hstate]⟩

theorem close_busy_changes_nothing_witness :
    (cs1550_close 0 (run [Call.create 0 true, Call.down 0 7 true] State.init)).ret =
        some (-EINVAL) ∧
      (cs1550_close 0 (run [Call.create 0 true, Call.down 0 7 true] State.init)).state =
        run [Call.create 0 true, Call.down 0 7 true] State.init ∧
      (∀ (current : Nat) (ok : Bool),
        cs1550_down 0 current ok
            (cs1550_close 0 (run [Call.create 0 true, Call.down 0 7 true] State.init)).state =
          cs1550_down 0 current ok
            (run [Call.create 0 true, Call.down 0 7 true] State.init)) ∧
      cs1550_up 0
          (cs1550_close 0 (run [Call.create 0 true, Call.down 0 7 true] State.init)).state =
        cs1550_up 0 (run [Call.create 0 true, Call.down 0 7 true] State.init) :=
  close_busy_changes_nothing (run [Call.create 0 true, Call.down 0 7 true] State.init)
    [] [] ⟨0, -1, [⟨7⟩]⟩ (by decide) (by decide)

/-! ## FIFO wake order -/

/-- A down on a live semaphore that calls `schedule` found the decremented
value negative. -/
theorem down_suspends_only_if_negative (s : State) (before after : List cs1550_sem)
    (sem : cs1550_sem) (current : Nat) (hlive : Live s before sem after)
    (hsusp : suspended (cs1550_down sem.sem_id current true s).trace = [current]) :
    wrap_long (sem.value - 1) < 0 := by
  by_contra hnn
  simp [cs1550_down, find_sem_of_live hlive, hnn, suspended] at hsusp

/-- When each of consecutive downs on a live semaphore suspends its caller, the
value was at most 0 and has room for that many decrements. -/
theorem downs_block_bounds (before after : List cs1550_sem) :
    ∀ (callers : List Nat) (s : State) (sem : cs1550_sem),
      Live s before sem after → LONG_MIN ≤ sem.value → sem.value ≤ LONG_MAX →
      (run_log (downs sem.sem_id callers) s).map (fun r => suspended r.trace) =
        callers.map (fun c => [c]) →
      callers = [] ∨ (sem.value ≤ 0 ∧ LONG_MIN ≤ sem.value - callers.length) := by
  intro callers
  induction callers with
  | nil => intro s sem _ _ _ _; exact Or.inl rfl
  | cons c cs ih =>
    intro s sem hlive hmin hmax hblock
    right
    simp only [downs, List.map_cons, run_log, step, List.cons.injEq] at hblock
    obtain ⟨hhead, htail⟩ := hblock
    have hneg := down_suspends_only_if_negative s before after sem c hlive hhead
    have hv : sem.value ≤ 0 ∧ LONG_MIN < sem.value := by
      unfold wrap_long at hneg
      unfold LONG_MIN LONG_MAX at *
      omega
    have hdown := cs1550_down_negative s before after sem c hlive hv.1 hv.2
    rw [hdown] at htail
    have hlive1 : Live
        { s with
          sem_list :=
            before ++
              { sem with
                value := sem.value - 1
                waiting_tasks := sem.waiting_tasks ++ [{ task := c }] } :: after }
        before
        { sem with
          value := sem.value - 1
          waiting_tasks := sem.waiting_tasks ++ [{ task := c }] }
        after := ⟨rfl, hlive.2⟩
    have hrec := ih _ _ hlive1 (by show LONG_MIN ≤ sem.value - 1; omega)
      (by show sem.value - 1 ≤ LONG_MAX; omega) htail
    simp only [List.length_cons, Nat.cast_add, Nat.cast_one]
    rcases hrec with hnil | ⟨_, hroom⟩
    · subst hnil
      simp only [List.length_nil, Nat.cast_zero]
      omega
    · have hroom1 : LONG_MIN ≤ sem.value - 1 - (cs.length : Int) := hroom
      omega

/-- State after consecutive blocking downs on a live semaphore: the value has
gone down by their number and the callers stand at the tail of the waiter
list in call order. -/
theorem run_downs (before after : List cs1550_sem) :
    ∀ (callers : List Nat) (s : State) (sem : cs1550_sem),
      Live s before sem after → sem.value ≤ 0 →
      LONG_MIN ≤ sem.value - callers.length →
      run (downs sem.sem_id callers) s =
        { s with
          sem_list :=
            before ++
              { sem with
                value := sem.value - callers.length
                waiting_tasks := sem.waiting_tasks ++ callers.map cs1550_task.mk } ::
              after } := by
  intro callers
  induction callers with
  | nil =>
    intro s sem hlive _ _
    simp [downs, run, ← hlive.1]
  | cons c cs ih =>
    intro s sem hlive hv hroom
    simp only [List.length_cons, Nat.cast_add, Nat.cast_one] at hroom
    have hdown := cs1550_down_negative s before after sem c hlive hv (by omega)
    have hlive1 : Live
        { s with
          sem_list :=
            before ++
              { sem with
                value := sem.value - 1
                waiting_tasks := sem.waiting_tasks ++ [{ task := c }] } :: after }
        before
        { sem with
          value := sem.value - 1
          waiting_tasks := sem.waiting_tasks ++ [{ task := c }] }
        after := ⟨rfl, hlive.2⟩
    have hrec := ih _ _ hlive1 (by show sem.value - 1 ≤ 0; omega)
      (by show LONG_MIN ≤ sem.value - 1 - (cs.length : Int); omega)
    simp only [downs, List.map_cons, run, step]
    rw [hdown]
    simp only [downs] at hrec
    rw [hrec]
    simp only [List.length_cons, Nat.cast_add, Nat.cast_one, List.append_assoc,
      List.singleton_append, List.map_cons]
    have harith : sem.value - 1 - (cs.length : Int) = sem.value - ((cs.length : Int) + 1) := by
      omega
    rw [harith]

/-- Consecutive ups on a live semaphore whose value stays at most 0 wake the
waiters from the head of the list, one per call, each call returning 0. -/
theorem run_log_ups (before after : List cs1550_sem) :
    ∀ (n : Nat) (s : State) (sem : cs1550_sem),
      Live s before sem after → LONG_MIN ≤ sem.value → sem.value + n ≤ 0 →
      n ≤ sem.waiting_tasks.length →
      (run_log (ups sem.sem_id n) s).map (fun r => (r.ret, woken r.trace)) =
        (sem.waiting_tasks.take n).map (fun w => (some 0, [w.task])) := by
  intro n
  induction n with
  | zero => intro s sem _ _ _ _; simp [ups, run_log]
  | succ n ih =>
    intro s sem hlive hmin hv hlen
    simp only [Nat.cast_add, Nat.cast_one] at hv
    cases hw : sem.waiting_tasks with
    | nil => rw [hw] at hlen; simp at hlen
    | cons head rest =>
      rw [hw] at hlen
      have hup := cs1550_up_negative s before after sem head rest hlive (by omega) hmin hw
      have hlive1 : Live
          { s with
            sem_list :=
              before ++ { sem with value := sem.value + 1, waiting_tasks := rest } :: after }
          before { sem with value := sem.value + 1, waiting_tasks := rest } after :=
        ⟨rfl, hlive.2⟩
      have hrec := ih _ _ hlive1 (by show LONG_MIN ≤ sem.value + 1; omega)
        (by show sem.value + 1 + (n : Int) ≤ 0; omega)
        (by show n ≤ rest.length; simpa using hlen)
      simp only [ups, List.replicate_succ, run_log, step, List.map_cons, List.take_succ_cons]
      rw [hup]
      simp only [ups] at hrec
      simp only [woken]
      rw [hrec]

/-- C8: for every live semaphore with an empty waiter list and every list of
callers `c1, ..., cn`, if each of the `n` consecutive downs of `c1, ..., cn` on
it suspends its caller, then the next `n` ups on it all return 0 and the k-th
of them wakes exactly `ck`. -/
theorem fifo_wake_order (s : State) (before after : List cs1550_sem) (sem : cs1550_sem)
    (callers : List Nat) (hlive : Live s before sem after)
    (hlong : LONG_MIN ≤ sem.value ∧ sem.value ≤ LONG_MAX)
    (hempty : sem.waiting_tasks = [])
    (hblock : (run_log (downs sem.sem_id callers) s).map (fun r => suspended r.trace) =
      callers.map (fun c => [c])) :
    (run_log (ups sem.sem_id callers.length) (run (downs sem.sem_id callers) s)).map
        (fun r => (r.ret, woken r.trace)) =
      callers.map (fun c => (some 0, [c])) := by
  rcases downs_block_bounds before after callers s sem hlive hlong.1 hlong.2 hblock with
    hnil | ⟨hv, hroom⟩
  · subst hnil
    simp [ups, run_log]
  · rw [run_downs before after callers s sem hlive hv hroom]
    have hlive1 : Live
        { s with
          sem_list :=
            before ++
              { sem with
                value := sem.value - callers.length
                waiting_tasks := sem.waiting_tasks ++ callers.map cs1550_task.mk } ::
              after }
        before
        { sem with
          value := sem.value - callers.length
          waiting_tasks := sem.waiting_tasks ++ callers.map cs1550_task.mk }
        after := ⟨rfl, hlive.2⟩
    have hups := run_log_ups before after callers.length _ _ hlive1 hroom
      (by show sem.value - (callers.length : Int) + (callers.length : Int) ≤ 0; omega)
      (by simp [hempty])
    rw [hups]
    simp [hempty, List.map_map, Function.comp_def]

theorem fifo_wake_order_witness :
    (run_log (ups 0 [7, 9, 4].length)
        (run (downs 0 [7, 9, 4]) (cs1550_create 0 true State.init).state)).map
        (fun r => (r.ret, woken r.trace)) =
      [7, 9, 4].map (fun c => (some 0, [c])) :=
  fifo_wake_order (cs1550_create 0 true State.init).state [] [] ⟨0, 0, []⟩ [7, 9, 4]
    (by decide) (by decide) rfl (by decide)

/-! ## Identifier allocation -/

theorem wrap_long_add (a b : Int) : wrap_long (wrap_long a + b) = wrap_long (a + b) := by
  unfold wrap_long
  omega

/-- Only a create that returns an identifier changes the counter, and it
advances it by one, modulo `2 ^ 64`. -/
theorem step_max_sem_id (c : Call) (s : State) :
    (step c s).state.max_sem_id =
      if c.creates then wrap_long (s.max_sem_id + 1) else s.max_sem_id := by
  cases c with
  | create value ok =>
    by_cases hv : value < 0
    · simp [step, cs1550_create, Call.creates, hv, not_le.mpr hv]
    · cases ok <;> simp [step, cs1550_create, Call.creates, hv, not_lt.mp hv]
  | down sem_id current ok =>
    simp only [step, cs1550_down, Call.creates]
    split
    · simp
    · split
      · split <;> simp
      · simp
  | up sem_id =>
    simp only [step, cs1550_up, Call.creates]
    split
    · simp
    · split
      · split <;> simp
      · simp
  | close sem_id =>
    simp only [step, cs1550_close, Call.creates]
    split
    · simp
    · split <;> simp

/-- A create that passes both tests returns the counter it finds. -/
theorem step_ret_of_creates (c : Call) (s : State) (hc : c.creates = true) :
    (step c s).ret = some s.max_sem_id := by
  cases c with
  | create value ok =>
    simp only [Call.creates, Bool.and_eq_true, decide_eq_true_eq] at hc
    simp [step, cs1550_create, not_lt.mpr hc.1, hc.2]
  | down sem_id current ok => simp [Call.creates] at hc
  | up sem_id => simp [Call.creates] at hc
  | close sem_id => simp [Call.creates] at hc

/-- As long as the counter does not pass `LONG_MAX`, it counts the creates that
returned an identifier, and each identifier returned lies between the counter
before the sequence and the counter after it. -/
theorem created_ids_bounds :
    ∀ (cs : List Call) (s : State), 0 ≤ s.max_sem_id →
      s.max_sem_id + (cs.filter Call.creates).length ≤ LONG_MAX →
      (run cs s).max_sem_id = s.max_sem_id + (cs.filter Call.creates).length ∧
        ∀ j ∈ created_ids cs s,
          s.max_sem_id ≤ j ∧ j < s.max_sem_id + (cs.filter Call.creates).length := by
  intro cs
  induction cs with
  | nil => intro s _ _; simp [run, created_ids]
  | cons c cs ih =>
    intro s h0 hmax
    have hstep := step_max_sem_id c s
    by_cases hc : c.creates = true
    · simp only [List.filter_cons, hc, if_true, List.length_cons, Nat.cast_add,
        Nat.cast_one] at hmax ⊢
      rw [if_pos hc, wrap_long_of_range (by unfold LONG_MIN; omega) (by omega)] at hstep
      have hrec := ih (step c s).state (by omega) (by omega)
      rw [hstep] at hrec
      refine ⟨by simp only [run]; omega, ?_⟩
      intro j hj
      simp only [created_ids, hc, if_true, step_ret_of_creates c s hc, List.mem_cons] at hj
      rcases hj with hj | hj
      · omega
      · have := hrec.2 j hj
        omega
    · simp only [List.filter_cons, hc] at hmax ⊢
      rw [if_neg hc] at hstep
      have hrec := ih (step c s).state (by omega) (by rw [hstep]; exact hmax)
      rw [hstep] at hrec
      refine ⟨by simp only [run]; exact hrec.1, ?_⟩
      intro j hj
      simp only [created_ids, hc] at hj
      exact hrec.2 j hj

/-- C1 (amended): for every sequence of create, down, up and close calls
issued from the initial empty registry in which fewer than `2 ^ 63` creates
returned an identifier, and every `v ≥ 0`, a create whose allocation succeeds
returns an identifier that is at least 0 and strictly greater than every
identifier returned by a create of the sequence. -/
theorem create_id_exceeds_earlier (cs : List Call) (v : Int) (hv : 0 ≤ v)
    (hcount : (cs.filter Call.creates).length < 2 ^ 63) :
    ∃ id : Int,
      (cs1550_create v true (run cs State.init)).ret = some id ∧ 0 ≤ id ∧
        ∀ j ∈ created_ids cs State.init, j < id := by
  have hcount1 : ((cs.filter Call.creates).length : Int) < 2 ^ 63 := by exact_mod_cast hcount
  have h := created_ids_bounds cs State.init (by decide)
    (by unfold LONG_MAX; simp only [State.init]; omega)
  simp only [State.init, zero_add] at h
  refine ⟨(run cs State.init).max_sem_id, ?_, ?_, ?_⟩
  · simp [cs1550_create, not_lt.mpr hv]
  · simp only [State.init]; omega
  · intro j hj
    simp only [State.init]
    have := h.2 j hj
    omega

theorem create_id_exceeds_earlier_witness :
    ∃ id : Int,
      (cs1550_create 5 true
          (run [Call.create 2 true, Call.down 0 7 true, Call.create (-1) true,
            Call.create 0 true, Call.close 0, Call.create 3 false] State.init)).ret = some id ∧
        0 ≤ id ∧
        ∀ j ∈ created_ids [Call.create 2 true, Call.down 0 7 true, Call.create (-1) true,
            Call.create 0 true, Call.close 0, Call.create 3 false] State.init, j < id :=
  create_id_exceeds_earlier [Call.create 2 true, Call.down 0 7 true, Call.create (-1) true,
    Call.create 0 true, Call.close 0, Call.create 3 false] 5 (by decide) (by decide)

/-- Counter after `n > 0` creates in a row, each with value 0 and a successful
allocation. -/
theorem run_creates_max_sem_id :
    ∀ (n : Nat) (s : State), 0 < n →
      (run (List.replicate n (Call.create 0 true)) s).max_sem_id =
        wrap_long (s.max_sem_id + n) := by
  intro n
  induction n with
  | zero => intro s hn; exact absurd hn (Nat.lt_irrefl 0)
  | succ n ih =>
    intro s _
    have hstep : (step (Call.create 0 true) s).state.max_sem_id =
        wrap_long (s.max_sem_id + 1) := by
      simp [step, cs1550_create]
    simp only [List.replicate_succ, run, Nat.cast_add, Nat.cast_one]
    rcases Nat.eq_zero_or_pos n with h | h
    · subst h
      simp only [List.replicate_zero, run, Nat.cast_zero, zero_add, hstep]
    · rw [ih (step (Call.create 0 true) s).state h, hstep, wrap_long_add]
      congr 1
      omega

/-- The first of `n > 0` creates in a row returns the counter it finds. -/
theorem created_ids_replicate (n : Nat) (s : State) (hn : 0 < n) :
    s.max_sem_id ∈ created_ids (List.replicate n (Call.create 0 true)) s := by
  obtain ⟨m, rfl⟩ := Nat.exists_eq_succ_of_ne_zero (Nat.pos_iff_ne_zero.mp hn)
  simp [List.replicate_succ, created_ids, Call.creates, step, cs1550_create]

/-- C1, as stated, fails once the counter has passed `LONG_MAX`: after `2 ^ 63`
creates in a row from the initial registry, the first of which returned 0, one
more create with value 0 and a successful allocation returns `LONG_MIN`, which
is not greater than 0. -/
theorem create_id_wraps_after_long_max :
    (cs1550_create 0 true
        (run (List.replicate (2 ^ 63) (Call.create 0 true)) State.init)).ret =
        some LONG_MIN ∧
      (0 : Int) ∈ created_ids (List.replicate (2 ^ 63) (Call.create 0 true)) State.init ∧
      ¬ (0 : Int) < LONG_MIN := by
  refine ⟨?_, ?_, by decide⟩
  · have hret : ∀ s : State, (cs1550_create 0 true s).ret = some s.max_sem_id := by
      intro s
      simp [cs1550_create]
    rw [hret]
    rw [run_creates_max_sem_id (2 ^ 63) State.init (by norm_num)]
    simp only [State.init]
    norm_num [wrap_long, LONG_MIN]
  · exact created_ids_replicate (2 ^ 63) State.init (by norm_num)

/-! ## What the search finds -/

/-- The search loop stops at the first entry with the identifier. -/
theorem find_sem_some {sem_id : Int} :
    ∀ {l before after : List cs1550_sem} {sem : cs1550_sem},
      find_sem sem_id l = some (before, sem, after) →
      l = before ++ sem :: after ∧ sem.sem_id = sem_id ∧
        ∀ x ∈ before, x.sem_id ≠ sem_id := by
  intro l
  induction l with
  | nil => intro before after sem h; simp [find_sem] at h
  | cons a l ih =>
    intro before after sem h
    by_cases ha : a.sem_id = sem_id
    · simp only [find_sem, ha, if_true, Option.some.injEq, Prod.mk.injEq] at h
      obtain ⟨rfl, rfl, rfl⟩ := h
      simp [ha]
    · simp only [find_sem, ha, if_false] at h
      cases hrec : find_sem sem_id l with
      | none => simp [hrec] at h
      | some found =>
        obtain ⟨b, x, r⟩ := found
        simp only [hrec, Option.some.injEq, Prod.mk.injEq] at h
        obtain ⟨rfl, rfl, rfl⟩ := h
        obtain ⟨hl, hid, hb⟩ := ih hrec
        refine ⟨by rw [hl]; rfl, hid, ?_⟩
        intro y hy
        rcases List.mem_cons.mp hy with rfl | hy
        · exact ha
        · exact hb y hy

/-- The entry the search stops at is live in the sense of `Live`. -/
theorem live_of_find_sem {sem_id : Int} {s : State} {before after : List cs1550_sem}
    {sem : cs1550_sem} (h : find_sem sem_id s.sem_list = some (before, sem, after)) :
    Live s before sem after ∧ sem.sem_id = sem_id := by
  obtain ⟨hl, hid, hb⟩ := find_sem_some h
  exact ⟨⟨hl, by rw [hid]; exact hb⟩, hid⟩

/-! ## Allocation failure in down -/

/-- C13 at a failing input: a semaphore with identifier 0, created with value
0, and a down by task 5 whose `kmalloc` returns NULL. The call does not return
`-ENOMEM`: it stores the decremented value `-1`, dereferences the NULL pointer
with both locks held and never returns; the value is not restored to 0. -/
theorem down_alloc_failure_faults :
    cs1550_down 0 5 false (cs1550_create 0 true State.init).state =
      { ret := none
        state := { sem_list := [⟨0, -1, []⟩], max_sem_id := 1 }
        trace :=
          [Event.read_lock, Event.spin_lock 0, Event.store_value 0, Event.kmalloc false,
           Event.null_deref] } := by
  decide

/-! ## Up without waiters -/

/-- C14, as stated, fails at the largest `long`: a semaphore created with value
`LONG_MAX` has no waiter, and up on it returns `-EINVAL` and leaves the value
at `LONG_MIN`, which is not `LONG_MAX + 1` and not positive. -/
theorem up_fails_at_long_max :
    cs1550_up 0 (cs1550_create LONG_MAX true State.init).state =
      { ret := some (-EINVAL)
        state := { sem_list := [⟨0, LONG_MIN, []⟩], max_sem_id := 1 }
        trace :=
          [Event.read_lock, Event.spin_lock 0, Event.store_value 0, Event.spin_unlock 0,
           Event.read_unlock] } := by
  decide

/-- C14 (amended): for every live semaphore whose value `v` satisfies
`0 ≤ v < LONG_MAX` and whose waiter list is empty, up returns 0, wakes no one,
and leaves the value equal to `v + 1`, which is positive; nothing else in the
state changes. -/
theorem up_without_waiters (s : State) (before after : List cs1550_sem) (sem : cs1550_sem)
    (hlive : Live s before sem after) (hv : 0 ≤ sem.value) (hmax : sem.value < LONG_MAX)
    (hempty : sem.waiting_tasks = []) :
    cs1550_up sem.sem_id s =
        { ret := some 0
          state :=
            { s with
              sem_list :=
                before ++
                  { sem with value := sem.value + 1, waiting_tasks := [] } :: after }
          trace :=
            [Event.read_lock, Event.spin_lock sem.sem_id, Event.store_value sem.sem_id,
             Event.spin_unlock sem.sem_id, Event.read_unlock] } ∧
      woken (cs1550_up sem.sem_id s).trace = [] ∧ 0 < sem.value + 1 := by
  have hw : wrap_long (sem.value + 1) = sem.value + 1 :=
    wrap_long_of_range (by unfold LONG_MIN; omega) (by omega)
  have hpos : ¬ sem.value + 1 ≤ 0 := by omega
  refine ⟨?_, ?_, by omega⟩ <;>
    simp [cs1550_up, find_sem_of_live hlive, hw, hpos, woken, hempty]

theorem up_without_waiters_witness :
    cs1550_up 0 (cs1550_create 2 true State.init).state =
        { ret := some 0
          state := { sem_list := [⟨0, 3, []⟩], max_sem_id := 1 }
          trace :=
            [Event.read_lock, Event.spin_lock 0, Event.store_value 0,
             Event.spin_unlock 0, Event.read_unlock] } ∧
      woken (cs1550_up 0 (cs1550_create 2 true State.init).state).trace = [] ∧
      (0 : Int) < 2 + 1 :=
  up_without_waiters (cs1550_create 2 true State.init).state [] [] ⟨0, 2, []⟩
    (by decide) (by decide) (by decide) rfl

/-! ## Frame of down and up -/

/-- C20: for every registry state and every live semaphore, down and up on its
identifier leave a state that differs from the previous one at most in that
entry, which keeps its identifier and its place: the entries before and after
it (their identifiers, values and waiter lists), their order and the
identifier counter are unchanged. -/
theorem down_up_frame (s : State) (before after : List cs1550_sem) (sem : cs1550_sem)
    (current : Nat) (ok : Bool) (hlive : Live s before sem after) :
    (∃ sem2 : cs1550_sem, sem2.sem_id = sem.sem_id ∧
        (cs1550_down sem.sem_id current ok s).state =
          { sem_list := before ++ sem2 :: after, max_sem_id := s.max_sem_id }) ∧
      ∃ sem2 : cs1550_sem, sem2.sem_id = sem.sem_id ∧
        (cs1550_up sem.sem_id s).state =
          { sem_list := before ++ sem2 :: after, max_sem_id := s.max_sem_id } := by
  constructor
  · simp only [cs1550_down, find_sem_of_live hlive]
    split
    · split
      · refine ⟨_, ?_, rfl⟩; rfl
      · refine ⟨_, ?_, rfl⟩; rfl
    · refine ⟨_, ?_, rfl⟩; rfl
  · simp only [cs1550_up, find_sem_of_live hlive]
    split
    · split
      · refine ⟨_, ?_, rfl⟩; rfl
      · refine ⟨_, ?_, rfl⟩; rfl
    · refine ⟨_, ?_, rfl⟩; rfl

theorem down_up_frame_witness :
    (∃ sem2 : cs1550_sem, sem2.sem_id = 2 ∧
        (cs1550_down 2 9 true ⟨[⟨0, 1, []⟩, ⟨2, 0, []⟩, ⟨3, -1, [⟨7⟩]⟩], 4⟩).state =
          { sem_list := [⟨0, 1, []⟩] ++ sem2 :: [⟨3, -1, [⟨7⟩]⟩], max_sem_id := 4 }) ∧
      ∃ sem2 : cs1550_sem, sem2.sem_id = 2 ∧
        (cs1550_up 2 ⟨[⟨0, 1, []⟩, ⟨2, 0, []⟩, ⟨3, -1, [⟨7⟩]⟩], 4⟩).state =
          { sem_list := [⟨0, 1, []⟩] ++ sem2 :: [⟨3, -1, [⟨7⟩]⟩], max_sem_id := 4 } :=
  down_up_frame ⟨[⟨0, 1, []⟩, ⟨2, 0, []⟩, ⟨3, -1, [⟨7⟩]⟩], 4⟩ [⟨0, 1, []⟩] [⟨3, -1, [⟨7⟩]⟩]
    ⟨2, 0, []⟩ 9 true (by decide)

/-! ## Locks -/

/-- C19: for every registry state and every call of create, down, up or close
that returns (with success or with an error), each release in the trace of the
call releases the lock taken last among those still held, and no lock is held
when the call returns: every lock taken has been released once, in the reverse
order of acquisition. -/
theorem locks_released_in_reverse_order (c : Call) (s : State)
    (hret : (step c s).ret ≠ none) :
    lifo [] (step c s).trace = true ∧ locks_held [] (step c s).trace = [] := by
  cases c with
  | create value ok =>
    simp only [step, cs1550_create]
    split
    · simp [lifo, locks_held]
    · split <;> simp [lifo, locks_held, held_after, Event.releases, Event.acquires]
  | down sem_id current ok =>
    simp only [step, cs1550_down] at hret ⊢
    split
    · simp [lifo, locks_held, held_after, Event.releases, Event.acquires]
    · rename_i before sem after hfind
      simp only [hfind] at hret
      split
      · rename_i hneg
        simp only [hneg, if_true] at hret
        split
        · rename_i hok
          simp [hok] at hret
        · simp [lifo, locks_held, held_after, Event.releases, Event.acquires]
      · simp [lifo, locks_held, held_after, Event.releases, Event.acquires]
  | up sem_id =>
    simp only [step, cs1550_up]
    split
    · simp [lifo, locks_held, held_after, Event.releases, Event.acquires]
    · split
      · split <;> simp [lifo, locks_held, held_after, Event.releases, Event.acquires]
      · simp [lifo, locks_held, held_after, Event.releases, Event.acquires]
  | close sem_id =>
    simp only [step, cs1550_close]
    split
    · simp [lifo, locks_held, held_after, Event.releases, Event.acquires]
    · split <;> simp [lifo, locks_held, held_after, Event.releases, Event.acquires]

theorem locks_released_in_reverse_order_witness :
    lifo [] (step (Call.close 0) (cs1550_create 0 true State.init).state).trace = true ∧
      locks_held [] (step (Call.close 0) (cs1550_create 0 true State.init).state).trace = [] :=
  locks_released_in_reverse_order (Call.close 0) (cs1550_create 0 true State.init).state
    (by decide)

/-- C15: in the trace of every call of create, down, up or close, from every
registry state, `schedule` is called only with no lock of the call held; and
when a down calls `schedule`, its trace ends with the release of the lock of
the semaphore, then the release of the read side of `sem_rwlock`, then
`schedule`, both locks being held and `schedule` not yet called before these
three operations. -/
theorem schedule_only_after_unlock (c : Call) (s : State) (sem_id : Int) (current : Nat)
    (ok : Bool) :
    scan suspend_ok [] (step c s).trace = true ∧
      (suspended (cs1550_down sem_id current ok s).trace ≠ [] →
        ∃ pre : List Event,
          (cs1550_down sem_id current ok s).trace =
              pre ++ [Event.spin_unlock sem_id, Event.read_unlock, Event.schedule current] ∧
            locks_held [] pre = [Lock.sem_lock sem_id, Lock.sem_rwlock_read] ∧
            suspended pre = []) := by
  constructor
  · cases c with
    | create value ok =>
      simp only [step, cs1550_create]
      split
      · simp [scan]
      · split <;> simp [scan, suspend_ok, held_after, Event.releases, Event.acquires]
    | down sem_id current ok =>
      simp only [step, cs1550_down]
      split
      · simp [scan, suspend_ok, held_after, Event.releases, Event.acquires]
      · split
        · split <;> simp [scan, suspend_ok, held_after, Event.releases, Event.acquires]
        · simp [scan, suspend_ok, held_after, Event.releases, Event.acquires]
    | up sem_id =>
      simp only [step, cs1550_up]
      split
      · simp [scan, suspend_ok, held_after, Event.releases, Event.acquires]
      · split
        · split <;> simp [scan, suspend_ok, held_after, Event.releases, Event.acquires]
        · simp [scan, suspend_ok, held_after, Event.releases, Event.acquires]
    | close sem_id =>
      simp only [step, cs1550_close]
      split
      · simp [scan, suspend_ok, held_after, Event.releases, Event.acquires]
      · split <;> simp [scan, suspend_ok, held_after, Event.releases, Event.acquires]
  · intro hsusp
    simp only [cs1550_down] at hsusp ⊢
    cases hfind : find_sem sem_id s.sem_list with
    | none => simp [hfind, suspended] at hsusp
    | some found =>
      obtain ⟨before, sem, after⟩ := found
      have hid := (live_of_find_sem hfind).2
      simp only [hfind] at hsusp ⊢
      by_cases hneg : wrap_long (sem.value - 1) < 0
      · cases ok with
        | false => simp [hneg, suspended] at hsusp
        | true =>
          refine ⟨[Event.read_lock, Event.spin_lock sem_id, Event.store_value sem_id,
            Event.kmalloc true, Event.list_add_task sem_id current,
            Event.set_current_state], ?_, ?_, ?_⟩
          · simp [hneg, hid]
          · simp [locks_held, held_after, Event.releases, Event.acquires]
          · simp [suspended]
      · simp [hneg, suspended] at hsusp

theorem schedule_only_after_unlock_witness :
    scan suspend_ok []
        (step (Call.down 0 5 true) (cs1550_create 0 true State.init).state).trace = true ∧
      (suspended (cs1550_down 0 5 true (cs1550_create 0 true State.init).state).trace ≠ [] →
        ∃ pre : List Event,
          (cs1550_down 0 5 true (cs1550_create 0 true State.init).state).trace =
              pre ++ [Event.spin_unlock 0, Event.read_unlock, Event.schedule 5] ∧
            locks_held [] pre = [Lock.sem_lock 0, Lock.sem_rwlock_read] ∧
            suspended pre = []) :=
  schedule_only_after_unlock (Call.down 0 5 true) (cs1550_create 0 true State.init).state
    0 5 true

/-- C16, as stated, fails in create: the trace of a create of value 0 from the
initial registry stores to `max_sem_id` before `write_lock` is taken, and
stores the value of the new semaphore without the lock of that semaphore. -/
theorem create_stores_without_locks :
    scan max_sem_id_ok [] (cs1550_create 0 true State.init).trace = false ∧
      scan sem_fields_ok [] (cs1550_create 0 true State.init).trace = false := by
  decide

/-- C16 (amended): in the trace of every call of create, down, up or close,
from every registry state, `sem_list` is changed only with the write side of
`sem_rwlock` held by the call; and in the trace of every call that is not a
create handing out a semaphore, the value and the waiter list of a semaphore
are changed only with the lock of that semaphore held by the call. -/
theorem stores_under_locks (c : Call) (s : State) :
    scan sem_list_ok [] (step c s).trace = true ∧
      (c.creates = false → scan sem_fields_ok [] (step c s).trace = true) := by
  cases c with
  | create value ok =>
    simp only [step, cs1550_create, Call.creates]
    split
    · simp [scan]
    · rename_i hv
      split
      · simp [scan, sem_list_ok, sem_fields_ok, held_after, Event.releases, Event.acquires]
      · rename_i hok
        simp [scan, sem_list_ok, held_after, Event.releases, Event.acquires,
          not_lt.mp hv, hok]
  | down sem_id current ok =>
    simp only [step, cs1550_down, Call.creates]
    split
    · simp [scan, sem_list_ok, sem_fields_ok, held_after, Event.releases, Event.acquires]
    · split
      · split <;>
          simp [scan, sem_list_ok, sem_fields_ok, held_after, Event.releases, Event.acquires]
      · simp [scan, sem_list_ok, sem_fields_ok, held_after, Event.releases, Event.acquires]
  | up sem_id =>
    simp only [step, cs1550_up, Call.creates]
    split
    · simp [scan, sem_list_ok, sem_fields_ok, held_after, Event.releases, Event.acquires]
    · split
      · split <;>
          simp [scan, sem_list_ok, sem_fields_ok, held_after, Event.releases, Event.acquires]
      · simp [scan, sem_list_ok, sem_fields_ok, held_after, Event.releases, Event.acquires]
  | close sem_id =>
    simp only [step, cs1550_close, Call.creates]
    split
    · simp [scan, sem_list_ok, sem_fields_ok, held_after, Event.releases, Event.acquires]
    · split <;>
        simp [scan, sem_list_ok, sem_fields_ok, held_after, Event.releases, Event.acquires]

theorem stores_under_locks_witness :
    scan sem_list_ok [] (step (Call.up 0) ⟨[⟨0, -1, [⟨7⟩]⟩], 1⟩).trace = true ∧
      ((Call.up 0).creates = false →
        scan sem_fields_ok [] (step (Call.up 0) ⟨[⟨0, -1, [⟨7⟩]⟩], 1⟩).trace = true) :=
  stores_under_locks (Call.up 0) ⟨[⟨0, -1, [⟨7⟩]⟩], 1⟩

/-! ## Waiters and value -/

theorem forall_mem_replace {p : cs1550_sem → Prop} {before after : List cs1550_sem}
    {sem : cs1550_sem} (sem2 : cs1550_sem) (h : ∀ x ∈ before ++ sem :: after, p x)
    (h2 : p sem2) : ∀ x ∈ before ++ sem2 :: after, p x := by
  intro x hx
  rcases List.mem_append.mp hx with hx | hx
  · exact h x (List.mem_append_left _ hx)
  · rcases List.mem_cons.mp hx with rfl | hx
    · exact h2
    · exact h x (List.mem_append_right _ (List.mem_cons_of_mem _ hx))

theorem forall_mem_remove {p : cs1550_sem → Prop} {before after : List cs1550_sem}
    {sem : cs1550_sem} (h : ∀ x ∈ before ++ sem :: after, p x) :
    ∀ x ∈ before ++ after, p x := by
  intro x hx
  rcases List.mem_append.mp hx with hx | hx
  · exact h x (List.mem_append_left _ hx)
  · exact h x (List.mem_append_right _ (List.mem_cons_of_mem _ hx))

/-- A call that returns and stays within a `long` keeps every semaphore
consistent and in range. -/
theorem step_consistent (c : Call) (s : State) (hok : completes_in_range c s = true)
    (hinv : ∀ x ∈ s.sem_list, x.consistent ∧ x.in_range) :
    ∀ x ∈ (step c s).state.sem_list, x.consistent ∧ x.in_range := by
  cases c with
  | create value ok =>
    simp only [completes_in_range, Bool.and_eq_true, decide_eq_true_eq] at hok
    simp only [step, cs1550_create]
    split
    · exact hinv
    · rename_i hv
      split
      · exact hinv
      · intro x hx
        rcases List.mem_append.mp hx with hx | hx
        · exact hinv x hx
        · rw [List.mem_singleton] at hx
          subst hx
          refine ⟨?_, ?_, hok.2⟩
          · simp only [cs1550_sem.consistent, List.length_nil, Nat.cast_zero]
            omega
          · show LONG_MIN ≤ value
            unfold LONG_MIN
            omega
  | down sem_id current ok =>
    cases hfind : find_sem sem_id s.sem_list with
    | none => simpa [step, cs1550_down, hfind] using hinv
    | some found =>
      obtain ⟨before, sem, after⟩ := found
      have hl := (find_sem_some hfind).1
      rw [hl] at hinv
      obtain ⟨hcons, hmin, hmax⟩ := hinv sem (by simp)
      simp only [cs1550_sem.consistent] at hcons
      simp only [completes_in_range, step, cs1550_down, hfind, Bool.and_eq_true,
        decide_eq_true_eq] at hok
      have hw : wrap_long (sem.value - 1) = sem.value - 1 :=
        wrap_long_of_range (by omega) (by omega)
      simp only [step, cs1550_down, hfind, hw] at hok ⊢
      by_cases hneg : sem.value - 1 < 0
      · cases ok with
        | false => simp [hneg] at hok
        | true =>
          simp only [hneg, if_true]
          refine forall_mem_replace _ hinv ⟨?_, ?_, ?_⟩
          · simp only [cs1550_sem.consistent, List.length_append, List.length_singleton,
              Nat.cast_add, Nat.cast_one]
            omega
          · show LONG_MIN ≤ sem.value - 1
            omega
          · show sem.value - 1 ≤ LONG_MAX
            omega
      · simp only [hneg, if_false]
        refine forall_mem_replace _ hinv ⟨?_, ?_, ?_⟩
        · simp only [cs1550_sem.consistent]
          omega
        · show LONG_MIN ≤ sem.value - 1
          omega
        · show sem.value - 1 ≤ LONG_MAX
          omega
  | up sem_id =>
    cases hfind : find_sem sem_id s.sem_list with
    | none => simpa [step, cs1550_up, hfind] using hinv
    | some found =>
      obtain ⟨before, sem, after⟩ := found
      have hl := (find_sem_some hfind).1
      rw [hl] at hinv
      obtain ⟨hcons, hmin, hmax⟩ := hinv sem (by simp)
      simp only [cs1550_sem.consistent] at hcons
      simp only [completes_in_range, step, cs1550_up, hfind, Bool.and_eq_true,
        decide_eq_true_eq] at hok
      have hw : wrap_long (sem.value + 1) = sem.value + 1 :=
        wrap_long_of_range (by omega) (by omega)
      simp only [step, cs1550_up, hfind, hw]
      by_cases hle : sem.value + 1 ≤ 0
      · simp only [hle, if_true]
        cases hwait : sem.waiting_tasks with
        | nil =>
          rw [hwait] at hcons
          simp only [List.length_nil, Nat.cast_zero] at hcons
          omega
        | cons head rest =>
          rw [hwait] at hcons
          simp only [List.length_cons, Nat.cast_add, Nat.cast_one] at hcons
          refine forall_mem_replace _ hinv ⟨?_, ?_, ?_⟩
          · simp only [cs1550_sem.consistent]
            omega
          · show LONG_MIN ≤ sem.value + 1
            omega
          · show sem.value + 1 ≤ LONG_MAX
            omega
      · simp only [hle, if_false]
        refine forall_mem_replace _ hinv ⟨?_, ?_, ?_⟩
        · simp only [cs1550_sem.consistent]
          omega
        · show LONG_MIN ≤ sem.value + 1
          omega
        · show sem.value + 1 ≤ LONG_MAX
          omega
  | close sem_id =>
    cases hfind : find_sem sem_id s.sem_list with
    | none => simpa [step, cs1550_close, hfind] using hinv
    | some found =>
      obtain ⟨before, sem, after⟩ := found
      have hl := (find_sem_some hfind).1
      simp only [step, cs1550_close, hfind]
      split
      · rw [hl] at hinv
        exact forall_mem_remove hinv
      · exact hinv

/-- Along a sequence of calls that return and stay within a `long`, every
semaphore stays consistent and in range. -/
theorem run_consistent :
    ∀ (cs : List Call) (s : State), run_in_range cs s = true →
      (∀ x ∈ s.sem_list, x.consistent ∧ x.in_range) →
      ∀ x ∈ (run cs s).sem_list, x.consistent ∧ x.in_range := by
  intro cs
  induction cs with
  | nil => intro s _ hinv; exact hinv
  | cons c cs ih =>
    intro s hok hinv
    simp only [run_in_range, Bool.and_eq_true] at hok
    exact ih (step c s).state hok.2 (step_consistent c s hok.1 hinv)

/-- C12, as stated, fails when a value passes `LONG_MAX`: after the two
completed calls create(`LONG_MAX`) and up(0) from the initial registry, the up
having returned `-EINVAL`, the live semaphore 0 has value `LONG_MIN` and no
waiter, so its number of waiters, 0, is not `max(0, -value) = 2 ^ 63`. -/
theorem waiters_drift_after_overflow :
    run_log [Call.create LONG_MAX true, Call.up 0] State.init =
        [cs1550_create LONG_MAX true State.init,
         { ret := some (-EINVAL)
           state := { sem_list := [⟨0, LONG_MIN, []⟩], max_sem_id := 1 }
           trace :=
             [Event.read_lock, Event.spin_lock 0, Event.store_value 0,
              Event.spin_unlock 0, Event.read_unlock] }] ∧
      run [Call.create LONG_MAX true, Call.up 0] State.init =
        { sem_list := [⟨0, LONG_MIN, []⟩], max_sem_id := 1 } ∧
      ¬ (⟨0, LONG_MIN, []⟩ : cs1550_sem).consistent := by
  decide

/-- C12 (amended): in every state reached from the initial empty registry by
a sequence of calls of create, down, up and close each of which returns and
none of which takes a semaphore value out of the range of a `long` (no create
of a value above `LONG_MAX`, no down on a value `LONG_MIN`, no up on a value
`LONG_MAX`), every live semaphore has `max(0, -value)` waiters. -/
theorem waiters_match_value (cs : List Call) (hok : run_in_range cs State.init = true) :
    ∀ sem ∈ (run cs State.init).sem_list,
      (sem.waiting_tasks.length : Int) = max 0 (-sem.value) := by
  intro sem hsem
  have h := run_consistent cs State.init hok (by simp [State.init]) sem hsem
  exact h.1

theorem waiters_match_value_witness :
    run [Call.create 1 true, Call.down 0 5 true, Call.down 0 6 true, Call.down 0 7 true,
        Call.create 0 true, Call.up 0, Call.close 1, Call.up 3] State.init =
        { sem_list := [⟨0, -1, [⟨7⟩]⟩], max_sem_id := 2 } ∧
      (((⟨0, -1, [⟨7⟩]⟩ : cs1550_sem).waiting_tasks.length : Nat) : Int) =
        max 0 (-(⟨0, -1, [⟨7⟩]⟩ : cs1550_sem).value) :=
  ⟨by decide,
    waiters_match_value [Call.create 1 true, Call.down 0 5 true, Call.down 0 6 true,
      Call.down 0 7 true, Call.create 0 true, Call.up 0, Call.close 1, Call.up 3]
      (by decide) ⟨0, -1, [⟨7⟩]⟩ (by decide)⟩

/-! ## Identifiers in use along a sequence of calls -/

/-- Effect of one call on the identifiers in use: a create that hands out a
semaphore appends the counter, any other call removes at most an entry. -/
theorem step_ids (c : Call) (s : State) :
    (c.creates = true ∧ (step c s).state.ids = s.ids ++ [s.max_sem_id]) ∨
      (c.creates = false ∧ ((step c s).state.ids).Sublist s.ids) := by
  cases c with
  | create value ok =>
    by_cases hv : value < 0
    · right
      simp [step, cs1550_create, Call.creates, hv, not_le.mpr hv]
    · cases ok with
      | false =>
        right
        simp [step, cs1550_create, Call.creates, hv]
      | true =>
        left
        simp [step, cs1550_create, Call.creates, hv, not_lt.mp hv, State.ids]
  | down sem_id current ok =>
    right
    refine ⟨rfl, ?_⟩
    cases hfind : find_sem sem_id s.sem_list with
    | none => simp [step, cs1550_down, hfind]
    | some found =>
      obtain ⟨before, sem, after⟩ := found
      have hl := (find_sem_some hfind).1
      simp only [step, cs1550_down, hfind, State.ids]
      rw [hl]
      split
      · split <;> simp
      · simp
  | up sem_id =>
    right
    refine ⟨rfl, ?_⟩
    cases hfind : find_sem sem_id s.sem_list with
    | none => simp [step, cs1550_up, hfind]
    | some found =>
      obtain ⟨before, sem, after⟩ := found
      have hl := (find_sem_some hfind).1
      simp only [step, cs1550_up, hfind, State.ids]
      rw [hl]
      split
      · split <;> simp
      · simp
  | close sem_id =>
    right
    refine ⟨rfl, ?_⟩
    cases hfind : find_sem sem_id s.sem_list with
    | none => simp [step, cs1550_close, hfind]
    | some found =>
      obtain ⟨before, sem, after⟩ := found
      have hl := (find_sem_some hfind).1
      simp only [step, cs1550_close, hfind, State.ids]
      rw [hl]
      split
      · simp only [List.map_append, List.map_cons]
        exact List.Sublist.append_left (List.sublist_cons_self _ _) _
      · simp [hl]

/-- Two of the first `2 ^ 64` values of the counter are different. -/
theorem wrap_long_ne {k n : Nat} (hk : k < n) (hn : n < 2 ^ 64) :
    wrap_long k ≠ wrap_long n := by
  have hk1 : (k : Int) < n := by exact_mod_cast hk
  have hn1 : (n : Int) < 2 ^ 64 := by exact_mod_cast hn
  unfold wrap_long
  omega

/-- One call keeps the account of the identifiers handed out, as long as fewer
than `2 ^ 64` have been handed out before it. -/
theorem issued_step (c : Call) (s : State) (n : Nat) (h : issued s n)
    (hn : c.creates = true → n < 2 ^ 64) :
    issued (step c s).state (n + if c.creates then 1 else 0) := by
  obtain ⟨hmax, hnodup, hids⟩ := h
  have hstep := step_max_sem_id c s
  rcases step_ids c s with ⟨hc, hnew⟩ | ⟨hc, hsub⟩
  · simp only [hc, if_true] at hstep ⊢
    refine ⟨?_, ?_, ?_⟩
    · rw [hstep, hmax, wrap_long_add]
      simp only [Nat.cast_add, Nat.cast_one]
    · rw [hnew, List.nodup_append]
      refine ⟨hnodup, List.nodup_singleton _, ?_⟩
      intro x hx hx2
      rw [List.mem_singleton] at hx2
      obtain ⟨k, hk, hxk⟩ := hids x hx
      rw [hx2, hmax] at hxk
      exact wrap_long_ne hk (hn hc) hxk.symm
    · intro x hx
      rw [hnew] at hx
      rcases List.mem_append.mp hx with hx | hx
      · obtain ⟨k, hk, hxk⟩ := hids x hx
        exact ⟨k, by omega, hxk⟩
      · rw [List.mem_singleton] at hx
        exact ⟨n, by omega, by rw [hx, hmax]⟩
  · simp only [hc, Bool.false_eq_true, if_false, Nat.add_zero] at hstep ⊢
    exact ⟨by rw [hstep, hmax], hnodup.sublist hsub, fun x hx => hids x (hsub.subset hx)⟩

/-- A sequence of calls keeps the account of the identifiers handed out, as
long as at most `2 ^ 64` have been handed out in all. -/
theorem issued_run :
    ∀ (cs : List Call) (s : State) (n : Nat), issued s n →
      n + (cs.filter Call.creates).length ≤ 2 ^ 64 →
      issued (run cs s) (n + (cs.filter Call.creates).length) := by
  intro cs
  induction cs with
  | nil => intro s n h _; simpa [run] using h
  | cons c cs ih =>
    intro s n h hn
    by_cases hc : c.creates = true
    · simp only [List.filter_cons, hc, if_true, List.length_cons] at hn ⊢
      have h1 := issued_step c s n h (fun _ => by omega)
      simp only [hc, if_true] at h1
      have h2 := ih (step c s).state (n + 1) h1 (by omega)
      simp only [run]
      rw [show n + ((cs.filter Call.creates).length + 1) =
        n + 1 + (cs.filter Call.creates).length by omega]
      exact h2
    · simp only [List.filter_cons, hc] at hn ⊢
      have h1 := issued_step c s n h (fun h => absurd h hc)
      simp only [hc, if_false, Nat.add_zero] at h1
      exact ih (step c s).state n h1 hn

theorem issued_init : issued State.init 0 := by
  refine ⟨by decide, by simp [State.init, State.ids], ?_⟩
  intro x hx
  simp [State.init, State.ids] at hx

/-- C18 (amended): in every state reached from the initial empty registry by a
sequence of calls of create, down, up and close in which fewer than `2 ^ 63`
creates returned an identifier, the identifiers of the live semaphores are
pairwise distinct and each is strictly less than `max_sem_id`, so that a
search for an identifier meets at most one entry with it. -/
theorem live_ids_distinct_below_counter (cs : List Call)
    (hcount : (cs.filter Call.creates).length < 2 ^ 63) :
    (run cs State.init).ids.Nodup ∧
      (∀ sem ∈ (run cs State.init).sem_list, sem.sem_id < (run cs State.init).max_sem_id) ∧
      ∀ sem_id : Int, (run cs State.init).ids.count sem_id ≤ 1 := by
  have h := issued_run cs State.init 0 issued_init (by omega)
  simp only [Nat.zero_add] at h
  obtain ⟨hmax, hnodup, hids⟩ := h
  have hcount1 : ((cs.filter Call.creates).length : Int) < 2 ^ 63 := by exact_mod_cast hcount
  refine ⟨hnodup, ?_, List.nodup_iff_count_le_one.mp hnodup⟩
  intro sem hsem
  obtain ⟨k, hk, hxk⟩ := hids sem.sem_id (List.mem_map_of_mem _ hsem)
  have hk1 : (k : Int) < (cs.filter Call.creates).length := by exact_mod_cast hk
  rw [hxk, hmax, wrap_long_of_range (by unfold LONG_MIN; omega) (by unfold LONG_MAX; omega),
    wrap_long_of_range (by unfold LONG_MIN; omega) (by unfold LONG_MAX; omega)]
  exact hk1

theorem live_ids_distinct_below_counter_witness :
    (run [Call.create 2 true, Call.create 0 true, Call.down 1 7 true, Call.close 0,
        Call.create 5 true] State.init).ids.Nodup ∧
      (∀ sem ∈ (run [Call.create 2 true, Call.create 0 true, Call.down 1 7 true,
          Call.close 0, Call.create 5 true] State.init).sem_list,
        sem.sem_id < (run [Call.create 2 true, Call.create 0 true, Call.down 1 7 true,
          Call.close 0, Call.create 5 true] State.init).max_sem_id) ∧
      ∀ sem_id : Int,
        (run [Call.create 2 true, Call.create 0 true, Call.down 1 7 true, Call.close 0,
          Call.create 5 true] State.init).ids.count sem_id ≤ 1 :=
  live_ids_distinct_below_counter [Call.create 2 true, Call.create 0 true,
    Call.down 1 7 true, Call.close 0, Call.create 5 true] (by decide)

/-- Creates in a row keep the identifiers in use. -/
theorem run_creates_keeps_ids :
    ∀ (n : Nat) (s : State) (x : Int), x ∈ s.ids →
      x ∈ (run (List.replicate n (Call.create 0 true)) s).ids := by
  intro n
  induction n with
  | zero => intro s x hx; simpa [run] using hx
  | succ n ih =>
    intro s x hx
    simp only [List.replicate_succ, run]
    apply ih
    simp only [step, cs1550_create, State.ids] at hx ⊢
    simp [hx]

/-- After `n > 0` creates in a row the semaphore made by the first is live. -/
theorem run_creates_has_first (n : Nat) (s : State) (hn : 0 < n) :
    s.max_sem_id ∈ (run (List.replicate n (Call.create 0 true)) s).ids := by
  obtain ⟨m, rfl⟩ := Nat.exists_eq_succ_of_ne_zero (Nat.pos_iff_ne_zero.mp hn)
  rw [List.replicate_succ]
  show s.max_sem_id ∈
    (run (List.replicate m (Call.create 0 true)) (step (Call.create 0 true) s).state).ids
  apply run_creates_keeps_ids
  simp [step, cs1550_create, State.ids]

/-- C18, as stated, fails once the counter has passed `LONG_MAX`: after
`2 ^ 63` creates in a row from the initial registry the semaphore with
identifier 0 is live while `max_sem_id` is `LONG_MIN`, and 0 is not less than
`LONG_MIN`. -/
theorem live_id_above_counter_after_wrap :
    (0 : Int) ∈ (run (List.replicate (2 ^ 63) (Call.create 0 true)) State.init).ids ∧
      (run (List.replicate (2 ^ 63) (Call.create 0 true)) State.init).max_sem_id = LONG_MIN ∧
      ¬ (0 : Int) < LONG_MIN := by
  refine ⟨?_, ?_, by decide⟩
  · exact run_creates_has_first (2 ^ 63) State.init (by norm_num)
  · rw [run_creates_max_sem_id (2 ^ 63) State.init (by norm_num)]
    simp only [State.init]
    norm_num [wrap_long, LONG_MIN]

/-! ## Identifiers after a close -/

/-- Identifiers in use after a sequence of calls were in use before it or were
handed out by it, as the next values of the counter. -/
theorem run_ids_old_or_new :
    ∀ (cs : List Call) (s : State) (n : Nat), s.max_sem_id = wrap_long n →
      ∀ x ∈ (run cs s).ids,
        x ∈ s.ids ∨ ∃ i : Nat, i < (cs.filter Call.creates).length ∧
          x = wrap_long ((n + i : Nat) : Int) := by
  intro cs
  induction cs with
  | nil => intro s n _ x hx; exact Or.inl hx
  | cons c cs ih =>
    intro s n hmax x hx
    have hstep := step_max_sem_id c s
    simp only [run] at hx
    rcases step_ids c s with ⟨hc, hnew⟩ | ⟨hc, hsub⟩
    · simp only [hc, if_true] at hstep
      have hmax1 : (step c s).state.max_sem_id = wrap_long ((n + 1 : Nat) : Int) := by
        rw [hstep, hmax, wrap_long_add]
        simp only [Nat.cast_add, Nat.cast_one]
      simp only [List.filter_cons, hc, if_true, List.length_cons]
      rcases ih (step c s).state (n + 1) hmax1 x hx with hold | ⟨i, hi, hxi⟩
      · rw [hnew] at hold
        rcases List.mem_append.mp hold with hold | hold
        · exact Or.inl hold
        · rw [List.mem_singleton] at hold
          exact Or.inr ⟨0, by omega, by rw [hold, hmax]; rfl⟩
      · refine Or.inr ⟨i + 1, by omega, ?_⟩
        rw [hxi]
        congr 2
        omega
    · simp only [hc, Bool.false_eq_true, if_false] at hstep
      simp only [List.filter_cons, hc, Bool.false_eq_true, if_false]
      rcases ih (step c s).state n (by rw [hstep, hmax]) x hx with hold | hnew
      · exact Or.inl (hsub.subset hold)
      · exact Or.inr hnew

/-- Identifiers returned by the creates of a sequence of calls are the next
values of the counter. -/
theorem created_ids_wrap :
    ∀ (cs : List Call) (s : State) (n : Nat), s.max_sem_id = wrap_long n →
      ∀ j ∈ created_ids cs s,
        ∃ i : Nat, i < (cs.filter Call.creates).length ∧
          j = wrap_long ((n + i : Nat) : Int) := by
  intro cs
  induction cs with
  | nil => intro s n _ j hj; simp [created_ids] at hj
  | cons c cs ih =>
    intro s n hmax j hj
    have hstep := step_max_sem_id c s
    by_cases hc : c.creates = true
    · simp only [hc, if_true] at hstep
      have hmax1 : (step c s).state.max_sem_id = wrap_long ((n + 1 : Nat) : Int) := by
        rw [hstep, hmax, wrap_long_add]
        simp only [Nat.cast_add, Nat.cast_one]
      simp only [created_ids, hc, if_true, step_ret_of_creates c s hc, List.mem_cons] at hj
      simp only [List.filter_cons, hc, if_true, List.length_cons]
      rcases hj with hj | hj
      · exact ⟨0, by omega, by rw [hj, hmax]; rfl⟩
      · obtain ⟨i, hi, hji⟩ := ih (step c s).state (n + 1) hmax1 j hj
        refine ⟨i + 1, by omega, ?_⟩
        rw [hji]
        congr 2
        omega
    · simp only [hc, Bool.false_eq_true, if_false] at hstep
      simp only [created_ids, hc, Bool.false_eq_true, if_false] at hj
      simp only [List.filter_cons, hc, Bool.false_eq_true, if_false]
      exact ih (step c s).state n (by rw [hstep, hmax]) j hj

/-- A close that returns 0 takes the identifier out of use and leaves the
counter as it is. -/
theorem close_removes_id (s : State) (n : Nat) (sem_id : Int) (h : issued s n)
    (hclose : (cs1550_close sem_id s).ret = some 0) :
    sem_id ∉ (cs1550_close sem_id s).state.ids ∧
      (cs1550_close sem_id s).state.max_sem_id = wrap_long n ∧
      ∃ k : Nat, k < n ∧ sem_id = wrap_long k := by
  obtain ⟨hmax, hnodup, hids⟩ := h
  cases hfind : find_sem sem_id s.sem_list with
  | none => simp [cs1550_close, hfind, EINVAL] at hclose
  | some found =>
    obtain ⟨before, sem, after⟩ := found
    obtain ⟨hl, hid, _⟩ := find_sem_some hfind
    cases hwait : sem.waiting_tasks with
    | cons head rest => simp [cs1550_close, hfind, hwait, EINVAL] at hclose
    | nil =>
      simp only [cs1550_close, hfind, hwait, State.ids]
      simp only [State.ids, hl, List.map_append, List.map_cons, hid] at hnodup hids
      refine ⟨?_, hmax, hids sem_id (by simp)⟩
      rw [List.nodup_middle, List.nodup_cons] at hnodup
      simpa using hnodup.1

/-- When the search finds nothing, down, up and close return `-EINVAL`. -/
theorem ret_of_find_sem_none (s : State) (sem_id : Int) (current : Nat) (ok : Bool)
    (h : find_sem sem_id s.sem_list = none) :
    (cs1550_down sem_id current ok s).ret = some (-EINVAL) ∧
      (cs1550_up sem_id s).ret = some (-EINVAL) ∧
      (cs1550_close sem_id s).ret = some (-EINVAL) := by
  simp [cs1550_down, cs1550_up, cs1550_close, h]

/-- C11 (amended): after a close of an identifier has returned 0 in a state
reached from the initial empty registry, and for every sequence of calls of
create, down, up and close issued next, as long as at most `2 ^ 64` creates
have returned an identifier since the initial registry: no create of the
sequence returns that identifier, and a down, an up or a close of that
identifier issued after the sequence returns `-EINVAL`. -/
theorem closed_id_stays_invalid (cs0 cs : List Call) (sem_id : Int) (current : Nat)
    (ok : Bool) (hclose : (cs1550_close sem_id (run cs0 State.init)).ret = some 0)
    (hcount :
      (cs0.filter Call.creates).length + (cs.filter Call.creates).length ≤ 2 ^ 64) :
    sem_id ∉ created_ids cs (cs1550_close sem_id (run cs0 State.init)).state ∧
      (cs1550_down sem_id current ok
          (run cs (cs1550_close sem_id (run cs0 State.init)).state)).ret = some (-EINVAL) ∧
      (cs1550_up sem_id
          (run cs (cs1550_close sem_id (run cs0 State.init)).state)).ret = some (-EINVAL) ∧
      (cs1550_close sem_id
          (run cs (cs1550_close sem_id (run cs0 State.init)).state)).ret = some (-EINVAL) := by
  have h0 := issued_run cs0 State.init 0 issued_init (by omega)
  simp only [Nat.zero_add] at h0
  obtain ⟨hgone, hmax, k, hk, hid⟩ := close_removes_id _ _ sem_id h0 hclose
  have hfresh : ∀ i : Nat, i < (cs.filter Call.creates).length →
      sem_id ≠ wrap_long (((cs0.filter Call.creates).length + i : Nat) : Int) := by
    intro i hi
    rw [hid]
    exact wrap_long_ne (by omega) (by omega)
  have habsent : ∀ sem ∈ (run cs (cs1550_close sem_id (run cs0 State.init)).state).sem_list,
      sem.sem_id ≠ sem_id := by
    intro sem hsem heq
    rcases run_ids_old_or_new cs _ _ hmax sem.sem_id (List.mem_map_of_mem _ hsem) with
      hold | ⟨i, hi, hxi⟩
    · rw [heq] at hold
      exact hgone hold
    · rw [heq] at hxi
      exact hfresh i hi hxi
  refine ⟨?_, ret_of_find_sem_none _ sem_id current ok (find_sem_eq_none habsent)⟩
  intro hmem
  obtain ⟨i, hi, hji⟩ := created_ids_wrap cs _ _ hmax sem_id hmem
  exact hfresh i hi hji

theorem closed_id_stays_invalid_witness :
    (0 : Int) ∉ created_ids [Call.create 1 true, Call.up 1, Call.create 0 true]
        (cs1550_close 0 (run [Call.create 0 true] State.init)).state ∧
      (cs1550_down 0 5 true
          (run [Call.create 1 true, Call.up 1, Call.create 0 true]
            (cs1550_close 0 (run [Call.create 0 true] State.init)).state)).ret =
        some (-EINVAL) ∧
      (cs1550_up 0
          (run [Call.create 1 true, Call.up 1, Call.create 0 true]
            (cs1550_close 0 (run [Call.create 0 true] State.init)).state)).ret =
        some (-EINVAL) ∧
      (cs1550_close 0
          (run [Call.create 1 true, Call.up 1, Call.create 0 true]
            (cs1550_close 0 (run [Call.create 0 true] State.init)).state)).ret =
        some (-EINVAL) :=
  closed_id_stays_invalid [Call.create 0 true] [Call.create 1 true, Call.up 1,
    Call.create 0 true] 0 5 true (by decide) (by decide)

/-- C11, as stated, fails once the counter has gone round: create returns
identifier 0 from the initial registry and close(0) returns 0; after
`2 ^ 64 - 1` further creates one more create returns 0 again. -/
theorem closed_id_reused_after_wrap :
    (cs1550_create 0 true State.init).ret = some 0 ∧
      (cs1550_close 0 (cs1550_create 0 true State.init).state).ret = some 0 ∧
      (cs1550_create 0 true
        (run (List.replicate (2 ^ 64 - 1) (Call.create 0 true))
          (cs1550_close 0 (cs1550_create 0 true State.init).state).state)).ret = some 0 := by
  refine ⟨by decide, by decide, ?_⟩
  have hret : ∀ s : State, (cs1550_create 0 true s).ret = some s.max_sem_id := by
    intro s
    simp [cs1550_create]
  have hs : (cs1550_close 0 (cs1550_create 0 true State.init).state).state.max_sem_id = 1 := by
    decide
  rw [hret, run_creates_max_sem_id (2 ^ 64 - 1) _ (by norm_num), hs]
  norm_num [wrap_long]

/-! ## Two creates at the same time -/

/-- Run without interruption, the steps of one execution of `cs1550_create`
amount to the call: same state afterwards, same value returned. -/
theorem create_steps_alone (v : Int) (s : State) (other : Creator) (hv : 0 ≤ v) :
    interleave [false, false, false, false, false]
        (⟨v, CreatePc.start⟩, other, ⟨s, false⟩) =
        (⟨v, CreatePc.returned s.max_sem_id⟩, other,
          ⟨(cs1550_create v true s).state, false⟩) ∧
      (cs1550_create v true s).ret = some s.max_sem_id := by
  simp [interleave, create_step, cs1550_create, not_lt.mpr hv]

/-- C17 at a failing input: create(3) and create(4) run at the same time on the
initial registry, the second reading `max_sem_id` after the first has read it
and before the first has written it. Both calls return 0 and the registry
afterwards holds two semaphores with identifier 0. -/
theorem concurrent_creates_collide :
    interleave [false, true, false, true, false, false, false, true, true, true]
        (⟨3, CreatePc.start⟩, ⟨4, CreatePc.start⟩, ⟨State.init, false⟩) =
      (⟨3, CreatePc.returned 0⟩, ⟨4, CreatePc.returned 0⟩,
        ⟨{ sem_list := [⟨0, 3, []⟩, ⟨0, 4, []⟩], max_sem_id := 1 }, false⟩) := by
  decide

end CS1550
